import Mathlib

/-!
Verification development for the SVG star-ring regenerator
(resources/make_27_star_svg.py).

Modelling conventions:
* Python floats are modelled as real numbers.  Numeric literals parsed out of
  attribute strings are rational values coerced into the reals.  IEEE-754
  binary rounding is not modelled; the decimal rounding performed by the
  12-significant-digit serialisation is modelled explicitly (round12 below).
* XML elements are modelled as rose trees carrying a tag, an optional id
  attribute, an optional transform attribute and an ordered list of children.
* Python exceptions are modelled with Except String; sys.exit-style failures
  of the driver are modelled with Option.
-/

noncomputable section

namespace Exordium

/-! ### Affine matrix algebra (source lines 55-101, 153-177) -/

/-- The six free entries of the source's 3x3 homogeneous matrices
[[a, c, e], [b, d, f], [0, 0, 1]]; the third row is fixed. -/
@[ext] structure Mat where
  a : ℝ
  b : ℝ
  c : ℝ
  d : ℝ
  e : ℝ
  f : ℝ

/-- mat_identity from the source. -/
def mat_identity : Mat := ⟨1, 0, 0, 1, 0, 0⟩

/-- mat_mul from the source: the 3x3 matrix product, with the entries of the
implicit third rows (0, 0, 1) transcribed literally. -/
def mat_mul (A B : Mat) : Mat :=
  { a := A.a * B.a + A.c * B.b + A.e * 0
    c := A.a * B.c + A.c * B.d + A.e * 0
    e := A.a * B.e + A.c * B.f + A.e * 1
    b := A.b * B.a + A.d * B.b + A.f * 0
    d := A.b * B.c + A.d * B.d + A.f * 0
    f := A.b * B.e + A.d * B.f + A.f * 1 }

/-- mat_translate from the source. -/
def mat_translate (tx ty : ℝ) : Mat := ⟨1, 0, 0, 1, tx, ty⟩

/-- mat_rotate from the source: math.radians followed by cos/sin,
rows [[c, -s, 0], [s, c, 0]]. -/
def mat_rotate (angle_deg : ℝ) : Mat :=
  let a := angle_deg * Real.pi / 180
  ⟨Real.cos a, Real.sin a, -Real.sin a, Real.cos a, 0, 0⟩

/-- mat_apply from the source: map a point through the matrix. -/
def mat_apply (m : Mat) (x y : ℝ) : ℝ × ℝ :=
  (m.a * x + m.c * y + m.e, m.b * x + m.d * y + m.f)

/-- Determinant of the 2x2 linear part, as computed inside mat_inv. -/
def matDet (m : Mat) : ℝ := m.a * m.d - m.b * m.c

/-- mat_inv from the source: closed-form inverse of the 2x2 linear part,
refused when the absolute determinant is below 1e-12. -/
def mat_inv (m : Mat) : Except String Mat :=
  let det := m.a * m.d - m.b * m.c
  if |det| < 1e-12 then .error "Non-invertible transform matrix"
  else
    let inv_det := 1.0 / det
    let ai := m.d * inv_det
    let bi := -m.b * inv_det
    let ci := -m.c * inv_det
    let di := m.a * inv_det
    .ok ⟨ai, bi, ci, di, -(ai * m.e + ci * m.f), -(bi * m.e + di * m.f)⟩

/-! ### Transform attribute parser (source lines 63-67, 102-151) -/

/-- ASCII letters: the regex class [a-zA-Z] of _transform_cmd_re. -/
def isAsciiLetter (ch : Char) : Bool := ch.isUpper || ch.isLower

/-- The whitespace predicate shared by Python's str.strip and by the \s
class of the source's str-pattern regexes (compiled without re.ASCII): the
Unicode whitespace characters of CPython's Py_UNICODE_ISSPACE — tab through
carriage return, the four information separators, space, next line (U+0085),
no-break space (U+00A0), ogham space mark, the en-quad..hair-space block,
the line and paragraph separators, narrow no-break space, medium
mathematical space and ideographic space. -/
def isPySpace (ch : Char) : Bool :=
  ('\x09' ≤ ch && ch ≤ '\x0d') || ('\x1c' ≤ ch && ch ≤ '\x1f') || ch = ' ' ||
  ch = '\u0085' || ch = '\u00A0' || ch = '\u1680' ||
  ('\u2000' ≤ ch && ch ≤ '\u200A') || ch = '\u2028' || ch = '\u2029' ||
  ch = '\u202F' || ch = '\u205F' || ch = '\u3000'

/-- Python str.strip on a character list: drop whitespace at both ends. -/
def stripChars (cs : List Char) : List Char :=
  ((cs.dropWhile isPySpace).reverse.dropWhile isPySpace).reverse

/-- One attempted match of the regex ([a-zA-Z]+)\s*\(([^)]*)\) at the head of
the character list: a maximal nonempty letter run, optional whitespace, an
opening parenthesis, the content up to the first closing parenthesis, and that
closing parenthesis.  Returns the two capture groups and the remainder. -/
def tryCmd (cs : List Char) : Option ((String × String) × List Char) :=
  let name := cs.takeWhile isAsciiLetter
  if name.isEmpty then none
  else
    match (cs.dropWhile isAsciiLetter).dropWhile isPySpace with
    | '(' :: rest =>
      match rest.dropWhile (fun c2 => c2 != ')') with
      | ')' :: rest2 => some ((name.asString, (rest.takeWhile (fun c2 => c2 != ')')).asString), rest2)
      | _ => none
    | _ => none

/-- Fuelled worker for findCmds.  A successful tryCmd consumes at least one
character, so any fuel of at least cs.length gives the unbounded scan
(findCmdsF_fuel below); the fuel only makes the recursion structural. -/
def findCmdsF (fuel : ℕ) (cs : List Char) : List (String × String) :=
  match fuel, cs with
  | 0, _ => []
  | _ + 1, [] => []
  | fuel + 1, ch :: t =>
    match tryCmd (ch :: t) with
    | some (p, rest) => p :: findCmdsF fuel rest
    | none => findCmdsF fuel t

/-- findall of _transform_cmd_re: scan left to right, at each position try to
match; on a match emit the capture groups and resume after the match,
otherwise advance one character. -/
def findCmds (cs : List Char) : List (String × String) := findCmdsF cs.length cs

/-- Numeric value of a list of decimal digit characters, most significant
first. -/
def digitsVal (ds : List Char) : ℕ :=
  ds.foldl (fun acc ch => 10 * acc + (ch.toNat - '0'.toNat)) 0

/-- Character-level decomposition of Python's float() literal grammar on a
separator-free token: optional sign, an integer part and/or a decimal point
with a fraction part, and an optional decimal exponent.  Returns
(mantissa negative?, mantissa digits value, fraction length,
exponent negative?, exponent digits value); inf/nan and digit underscores are
not modelled. -/
def floatDecomp (cs0 : List Char) : Option (Bool × ℕ × ℕ × Bool × ℕ) :=
  let signAndRest : Bool × List Char :=
    match cs0 with
    | '+' :: t => (false, t)
    | '-' :: t => (true, t)
    | t => (false, t)
  let cs := signAndRest.2
  let ipart := cs.takeWhile Char.isDigit
  let cs1 := cs.dropWhile Char.isDigit
  let fracAndRest : List Char × List Char :=
    match cs1 with
    | '.' :: t => (t.takeWhile Char.isDigit, t.dropWhile Char.isDigit)
    | t => ([], t)
  let fpart := fracAndRest.1
  if ipart.isEmpty && fpart.isEmpty then none
  else
    match fracAndRest.2 with
    | [] => some (signAndRest.1, digitsVal (ipart ++ fpart), fpart.length, false, 0)
    | ech :: t =>
      if ech = 'e' || ech = 'E' then
        let esignAndRest : Bool × List Char :=
          match t with
          | '+' :: t2 => (false, t2)
          | '-' :: t2 => (true, t2)
          | t2 => (false, t2)
        let ed := esignAndRest.2.takeWhile Char.isDigit
        if ed.isEmpty || !(esignAndRest.2.dropWhile Char.isDigit).isEmpty then none
        else some (signAndRest.1, digitsVal (ipart ++ fpart), fpart.length,
          esignAndRest.1, digitsVal ed)
      else none

/-- The exact rational value denoted by a decomposed float literal. -/
def floatVal : Bool × ℕ × ℕ × Bool × ℕ → ℚ
  | (neg, mant, flen, eneg, ev) =>
    (if neg then -1 else 1) * (mant : ℚ) / (10 : ℚ) ^ flen
      * (10 : ℚ) ^ ((if eneg then -1 else 1) * (ev : ℤ))

/-- Model of Python's float() on a token: strip whitespace, decompose the
literal, take its exact rational value (IEEE-754 rounding is not modelled). -/
def parseFloat? (s : String) : Option ℚ :=
  (floatDecomp (stripChars s.toList)).map floatVal

/-- The separator class [,\s] of parse_number_list's re.split. -/
def isSep (ch : Char) : Bool := ch = ',' || isPySpace ch

/-- Maximal separator-free runs of the character list: the nonempty pieces
produced by re.split over [,\s]+ (empty boundary pieces are dropped by the
source's comprehension filter). -/
def splitTokensF : ℕ → List Char → List String
  | 0, _ => []
  | _ + 1, [] => []
  | fuel + 1, ch :: t =>
    if isSep ch then splitTokensF fuel t
    else ((ch :: t.takeWhile (fun c2 => !isSep c2)).asString)
        :: splitTokensF fuel (t.dropWhile (fun c2 => !isSep c2))

/-- Token list of a character list, via the fuelled worker; fuel cs.length
suffices since every emitted token consumes at least one character. -/
def splitTokens (cs : List Char) : List String := splitTokensF cs.length cs

/-- Left-to-right conversion of the split tokens with float(); the first
failing token aborts with its conversion error, as the raising Python
comprehension does. -/
def floatsOf : List String → Except String (List ℚ)
  | [] => .ok []
  | tok :: toks =>
    match parseFloat? tok with
    | some q => (floatsOf toks).map (fun qs => q :: qs)
    | none => .error ("could not convert string to float: " ++ tok)

/-- parse_number_list from the source: strip, split on comma/whitespace runs,
convert every nonempty piece with float(). -/
def parse_number_list (s : String) : Except String (List ℚ) :=
  floatsOf (splitTokens (stripChars s.toList))

/-- Python str.lower() on the matched command name: ASCII per-character
lowering (the regex only matches ASCII letters). -/
def pyLower (s : String) : String := (s.toList.map Char.toLower).asString

/-- The matrix built for a single parsed transform command: the per-branch m
of parse_transform (source lines 109-146), including the argument-count
checks and the rejection of unsupported command names. -/
def cmdMatrix (cmd : String) (vals : List ℚ) : Except String Mat :=
  if pyLower cmd = "matrix" then
    match vals with
    | [a, b, cc, d, e, f] => .ok ⟨(a : ℝ), (b : ℝ), (cc : ℝ), (d : ℝ), (e : ℝ), (f : ℝ)⟩
    | _ => .error ("matrix expects 6 values, got " ++ toString vals.length)
  else if pyLower cmd = "translate" then
    match vals with
    | [tx] => .ok (mat_translate (tx : ℝ) 0)
    | [tx, ty] => .ok (mat_translate (tx : ℝ) (ty : ℝ))
    | _ => .error ("translate expects 1 or 2 values, got " ++ toString vals.length)
  else if pyLower cmd = "rotate" then
    match vals with
    | [ang] => .ok (mat_rotate (ang : ℝ))
    | [ang, cx, cy] =>
      .ok (mat_mul (mat_translate (cx : ℝ) (cy : ℝ))
        (mat_mul (mat_rotate (ang : ℝ)) (mat_translate (-(cx : ℝ)) (-(cy : ℝ)))))
    | _ => .error ("rotate expects 1 or 3 values, got " ++ toString vals.length)
  else if pyLower cmd = "scale" then
    match vals with
    | [sv] => .ok ⟨(sv : ℝ), 0, 0, (sv : ℝ), 0, 0⟩
    | [sx, sy] => .ok ⟨(sx : ℝ), 0, 0, (sy : ℝ), 0, 0⟩
    | _ => .error ("scale expects 1 or 2 values, got " ++ toString vals.length)
  else .error ("Unsupported transform cmd: " ++ cmd)

/-- One iteration of parse_transform's loop body: parse the argument list,
build the command's matrix, right-multiply it onto the accumulator. -/
def applyCmd (acc : Mat) (p : String × String) : Except String Mat := do
  let vals ← parse_number_list p.2
  let m ← cmdMatrix p.1 vals
  pure (mat_mul acc m)

/-- parse_transform from the source: absent or blank attribute gives the
identity; otherwise fold the regex matches left to right starting from the
identity. -/
def parse_transform (t : Option String) : Except String Mat :=
  match t with
  | none => .ok mat_identity
  | some s =>
    if (stripChars s.toList).isEmpty then .ok mat_identity
    else (findCmds s.toList).foldlM applyCmd mat_identity

/-! ### Serialisation model (source lines 174-177)

matrix_to_svg renders the six entries with the %.12g format, which keeps 12
significant decimal digits.  The string itself cannot be produced for an
arbitrary real number, so the serialise-then-re-parse composite is modelled at
the value level: re-parsing "matrix(a b c d e f)" recovers one matrix command
whose six values are the formatted entries, i.e. each entry rounded to 12
significant decimal digits. -/

/-- Rounding to 12 significant decimal digits: the value recovered by
re-parsing a %.12g rendering of x.  (%.12g rounds the nearest-double of x to
12 significant digits; the binary double step is not modelled, and exact
half-way ties round half-up here where the format rounds half-even.) -/
def round12 (x : ℝ) : ℝ :=
  if x = 0 then 0
  else ((round (x / (10 : ℝ) ^ (Int.log 10 |x| - 11)) : ℤ) : ℝ)
    * (10 : ℝ) ^ (Int.log 10 |x| - 11)

/-- Value-level effect of matrix_to_svg followed by parse_transform on the
resulting "matrix(...)" string: each of the six entries is rounded to the 12
significant digits that the %.12g format keeps. -/
def matrix_to_svg_reparsed (m : Mat) : Mat :=
  ⟨round12 m.a, round12 m.b, round12 m.c, round12 m.d, round12 m.e, round12 m.f⟩

/-! ### Document tree (source lines 37-52, 180-212) -/

/-- An XML element: tag, optional id attribute, optional transform attribute,
ordered children.  No other attribute plays a role in the program. -/
inductive Elem where
  | node (tag : String) (idAttr : Option String) (transformAttr : Option String)
      (children : List Elem)

mutual
def decEqElem (x y : Elem) : Decidable (x = y) :=
  match x, y with
  | .node t1 i1 tr1 cs1, .node t2 i2 tr2 cs2 =>
    if h1 : t1 = t2 then
      if h2 : i1 = i2 then
        if h3 : tr1 = tr2 then
          match decEqElemList cs1 cs2 with
          | isTrue h4 => isTrue (by rw [h1, h2, h3, h4])
          | isFalse h4 => isFalse (by intro hc; injection hc; contradiction)
        else isFalse (by intro hc; injection hc; contradiction)
      else isFalse (by intro hc; injection hc; contradiction)
    else isFalse (by intro hc; injection hc; contradiction)

def decEqElemList (xs ys : List Elem) : Decidable (xs = ys) :=
  match xs, ys with
  | [], [] => isTrue rfl
  | _ :: _, [] => isFalse (by intro hc; cases hc)
  | [], _ :: _ => isFalse (by intro hc; cases hc)
  | x :: xs2, y :: ys2 =>
    match decEqElem x y with
    | isTrue h1 =>
      match decEqElemList xs2 ys2 with
      | isTrue h2 => isTrue (by rw [h1, h2])
      | isFalse h2 => isFalse (by intro hc; injection hc; contradiction)
    | isFalse h1 => isFalse (by intro hc; injection hc; contradiction)
end

instance : DecidableEq Elem := decEqElem

/-- A junk element used only to totalise lookups whose success is guaranteed
by the call sites. -/
def emptyElem : Elem := .node "" none none []

def Elem.tag : Elem → String
  | .node t _ _ _ => t

def Elem.idAttr : Elem → Option String
  | .node _ i _ _ => i

def Elem.transformAttr : Elem → Option String
  | .node _ _ tr _ => tr

def Elem.children : Elem → List Elem
  | .node _ _ _ cs => cs

mutual
/-- Identifiers carried by a subtree in document (pre-order) order, with
multiplicity: the traversal underlying find_all_ids and the uniqueness
questions about the output document. -/
def Elem.idList : Elem → List String
  | .node _ i _ cs => i.toList ++ idListL cs

def idListL : List Elem → List String
  | [] => []
  | c :: cs => c.idList ++ idListL cs
end

mutual
/-- Path (child-index list) of the first element carrying the given id in the
pre-order document order walked by find_element_by_id via root.iter. -/
def findPath (e : Elem) (sid : String) : Option (List ℕ) :=
  match e with
  | .node _ i _ cs => if i = some sid then some [] else findPathL cs sid 0

def findPathL (cs : List Elem) (sid : String) (k : ℕ) : Option (List ℕ) :=
  match cs with
  | [] => none
  | c :: t =>
    match findPath c sid with
    | some p => some (k :: p)
    | none => findPathL t sid (k + 1)
end

/-- Node at a path of child indices. -/
def getAt : Elem → List ℕ → Option Elem
  | e, [] => some e
  | .node _ _ _ cs, j :: p =>
    match cs[j]? with
    | some c => getAt c p
    | none => none

/-- Replace the node at a path; identity when the path is invalid. -/
def setAt : Elem → List ℕ → Elem → Elem
  | _, [], v => v
  | .node t i tr cs, j :: p, v =>
    match cs[j]? with
    | some c => .node t i tr (cs.set j (setAt c p v))
    | none => .node t i tr cs

/-- Remove the node at a nonempty path from its parent's child list — the
par.remove(elem) step of the deletion phase.  Identity on the empty path
(the root has no parent) and on invalid paths. -/
def removeAt : Elem → List ℕ → Elem
  | e, [] => e
  | .node t i tr cs, [j] => .node t i tr (cs.eraseIdx j)
  | .node t i tr cs, j :: p =>
    match cs[j]? with
    | some c => .node t i tr (cs.set j (removeAt c p))
    | none => .node t i tr cs

/-- Append new children at the end of an element's child list (the append
calls of the stamping loop). -/
def appendChildren (e : Elem) (ws : List Elem) : Elem :=
  .node e.tag e.idAttr e.transformAttr (e.children ++ ws)

/-- star.set("id", sid): replace the root's id attribute. -/
def setId (e : Elem) (sid : String) : Elem :=
  .node e.tag (some sid) e.transformAttr e.children

mutual
/-- Structural identity up to identifier attributes: equal tags, equal
transform attributes, pointwise same-shaped children. -/
def sameShape : Elem → Elem → Bool
  | .node t1 _ tr1 cs1, .node t2 _ tr2 cs2 =>
    t1 == t2 && tr1 == tr2 && sameShapeL cs1 cs2

def sameShapeL : List Elem → List Elem → Bool
  | [], [] => true
  | c :: cs, d :: ds => sameShape c d && sameShapeL cs ds
  | _, _ => false
end

/-! ### Fixed configuration constants (source lines 16-30) -/

def TEMPLATE_ID : String := "g16532"

def STAR_IDS_TO_DELETE : List String :=
  ["g16722", "g16712", "g16702", "g16692", "g16682", "g16672", "g16662",
   "g16652", "g16642", "g16632", "g16622", "g16612", "g16602", "g16592",
   "g16582", "g16572", "g16562", "g16552", "g16542"]

def GLOBAL_CENTER_X : ℝ := 750.0

def GLOBAL_CENTER_Y : ℝ := 515.0

def TOTAL_STARS : ℕ := 27

def STEP_DEG : ℝ := 360.0 / (TOTAL_STARS : ℝ)

def DIRECTION : ℝ := 1

/-! ### Rotation-center computation (source lines 198-212, 241-245) -/

/-- All prefixes of a path, shortest first: the root-to-node ancestor chain
produced by the parent-map walk and reversal in
cumulative_transform_to_parent. -/
def ancestorChain (doc : Elem) (p : List ℕ) : List Elem :=
  (List.range (p.length + 1)).filterMap fun k => getAt doc (p.take k)

/-- cumulative_transform_to_parent's composition loop: fold each chain node's
own transform attribute, root first, via m = mat_mul m (parse_transform ...). -/
def cumulative_transform_to_parent (chain : List Elem) : Except String Mat :=
  chain.foldlM (fun m nd => (parse_transform nd.transformAttr).map (mat_mul m)) mat_identity

/-- Rotation-center phase of main (lines 235-245): cumulative transform of the
template's parent, inverted, applied to the global center point. -/
def computeCenter (doc : Elem) : Except String (ℝ × ℝ) :=
  match findPath doc TEMPLATE_ID with
  | none => .error "template not found"
  | some [] => .error "template has no parent"
  | some p => do
    let m ← cumulative_transform_to_parent (ancestorChain doc p.dropLast)
    let inv ← mat_inv m
    pure (mat_apply inv GLOBAL_CENTER_X GLOBAL_CENTER_Y)

/-! ### Stamping phase (source lines 263-289) -/

/-- The rotation angle computed for copy i (line 267). -/
def stampAngle (i : ℕ) : ℝ := DIRECTION * STEP_DEG * (i : ℝ)

/-- Python's f"{i:02d}". -/
def pad2 (i : ℕ) : String := if i < 10 then "0" ++ toString i else toString i

/-- First-fresh-candidate loop shared by the two id-collision while loops:
try cand k, cand (k+1), ... and return the first candidate outside the id
set.  The fuel argument only bounds the recursion; because the candidate
families used are injective, ids.length + 1 attempts always reach a fresh
candidate (mintLoop_not_mem below), so the fuelled loop agrees with the
source's unbounded while loop. -/
def mintLoop (cand : ℕ → String) (ids : List String) : ℕ → ℕ → String
  | 0, k => cand k
  | fuel + 1, k => if cand k ∈ ids then mintLoop cand ids fuel (k + 1) else cand k

/-- Candidate sequence of the star-id loop (lines 270-274): the base name
f"TEMPLATE_ID_new{i:02d}" first, then numeric suffixes _2, _3, ... -/
def starCand (base : String) : ℕ → String
  | 0 => base
  | k + 1 => base ++ "_" ++ toString (k + 2)

def mintStar (base : String) (ids : List String) : String :=
  mintLoop (starCand base) ids (ids.length + 1) 0

/-- Candidate sequence of the wrapper-id loop (lines 280-283): star_id +
"_wrap", then repeatedly appending "_x" while it collides. -/
def wrapCand (sid : String) : ℕ → String
  | 0 => sid ++ "_wrap"
  | k + 1 => wrapCand sid k ++ "_x"

def mintWrap (sid : String) (ids : List String) : String :=
  mintLoop (wrapCand sid) ids (ids.length + 1) 0

/-- The wrapper tag f-string with the SVG namespace in Clark notation. -/
def WRAPPER_TAG : String := "\x7bhttp://www.w3.org/2000/svg\x7dg"

/-- One iteration of the stamping loop (lines 266-289) on the pair (tracked id
set, wrappers built so far): deep-copy the snapshot, mint the star id and add
it to the set, build the wrapper group carrying the rotation transform, mint
the wrapper id and add it, append the wrapper.  fmt abstracts the %.12g float
formatting used inside the f-string for the rotate(...) attribute. -/
def stampStep (snapshot : Elem) (fmt : ℝ → String) (cx cy : ℝ)
    (st : List String × List Elem) (i : ℕ) : List String × List Elem :=
  let sid := mintStar (TEMPLATE_ID ++ "_new" ++ pad2 i) st.1
  let ids1 := sid :: st.1
  let wid := mintWrap sid ids1
  let ids2 := wid :: ids1
  let star := setId snapshot sid
  let wrapper := Elem.node WRAPPER_TAG (some wid)
    (some ("rotate(" ++ fmt (stampAngle i) ++ " " ++ fmt cx ++ " " ++ fmt cy ++ ")")) [star]
  (ids2, st.2 ++ [wrapper])

/-- The full stamping loop: 27 wrappers, starting from the id set
find_all_ids(root) taken after the deletion phase. -/
def stampAll (snapshot : Elem) (fmt : ℝ → String) (cx cy : ℝ)
    (ids0 : List String) : List Elem :=
  ((List.range TOTAL_STARS).foldl (stampStep snapshot fmt cx cy) (ids0, [])).2

/-! ### Deletion phase (source lines 249-261) -/

/-- Path adjustment after removing the node at path d: a tracked path through
the same parent shifts its child index down by one when that index lies to
the right of the removed child; other paths are unaffected. -/
def adjustPath (d q : List ℕ) : List ℕ :=
  let n := d.dropLast.length
  if d.dropLast.isPrefixOf q then
    match q[n]?, d.getLast? with
    | some k, some j => if j < k then q.set n (k - 1) else q
    | _, _ => q
  else q

/-- One deletion step on the pair (live tree, tracked star_parent location).
The id is looked up in the live tree; absent ids and the root are skipped
(find returns None / the root has no parent).  When the removed node is the
tracked parent or one of its ancestors, the tracked location becomes the
detached subtree value, which later live-tree deletions can no longer
reach — mirroring the Python object graph. -/
def deleteOne (st : Elem × (List ℕ ⊕ Elem)) (sid : String) : Elem × (List ℕ ⊕ Elem) :=
  match findPath st.1 sid with
  | none => st
  | some [] => st
  | some d =>
    let t2 := removeAt st.1 d
    let sp2 : List ℕ ⊕ Elem :=
      match st.2 with
      | .inl q =>
        if d.isPrefixOf q then .inr ((getAt st.1 q).getD emptyElem)
        else .inl (adjustPath d q)
      | .inr v => .inr v
    (t2, sp2)

/-- The deletion phase: fold deleteOne over the id list. -/
def deletePhase (ids : List String) (st : Elem × (List ℕ ⊕ Elem)) :
    Elem × (List ℕ ⊕ Elem) :=
  ids.foldl deleteOne st

/-- The 19 listed stars plus the template itself (line 250). -/
def all_to_delete : List String := STAR_IDS_TO_DELETE ++ [TEMPLATE_ID]

/-! ### The driver (source lines 215-294) -/

/-- Result of a run: the tree written to the output file, and the final value
of the star_parent element.  When the deletion phase detached star_parent,
the wrappers were appended to the detached element, so starParent is then not
part of out. -/
structure RunOut where
  out : Elem
  starParent : Elem

/-- Phases 1 and 3-5 of main: locate and snapshot the template, delete the
listed stars plus the template, take find_all_ids of the live tree, stamp
TOTAL_STARS wrappers onto star_parent.  The rotation-center phase (modelled
by computeCenter) only feeds the numbers cx, cy printed inside the wrappers'
transform strings, so it enters here as the two parameters together with the
%.12g formatter fmt.  None models the two error exits: template missing, and
template without a parent (template at the root). -/
def runMain (fmt : ℝ → String) (cx cy : ℝ) (doc : Elem) : Option RunOut :=
  match findPath doc TEMPLATE_ID with
  | none => none
  | some [] => none
  | some p =>
    let snapshot := (getAt doc p).getD emptyElem
    let st := deletePhase all_to_delete (doc, .inl p.dropLast)
    let ws := stampAll snapshot fmt cx cy st.1.idList
    match st.2 with
    | .inl q =>
      let mid := (getAt st.1 q).getD emptyElem
      some ⟨setAt st.1 q (appendChildren mid ws), appendChildren mid ws⟩
    | .inr v => some ⟨st.1, appendChildren v ws⟩

/-! ### Concrete documents and helpers used by the claim instances -/

/-- A trivial stand-in for the %.12g formatter, for instances where the
printed digits are irrelevant. -/
def fmt0 : ℝ → String := fun _ => ""

/-- The output tree of a run; junk when the run failed. -/
def runOutTree (r : Option RunOut) : Elem :=
  match r with
  | some o => o.out
  | none => emptyElem

/-- Scenario document of the spec: the template g16532 sits inside a layer
group whose transform is translate(100,100); the template itself carries no
transform, so its local-to-global transform is translate(100,100). -/
def c2doc : Elem :=
  .node "svg" (some "base") none
    [.node "g" (some "layer") (some "translate(100,100)")
      [.node "g" (some "g16532") none []]]

/-- A document with pairwise-distinct identifiers whose template subtree has
a descendant carrying an identifier. -/
def c1CexDoc : Elem :=
  .node "svg" (some "base") none
    [.node "g" (some "g16532") none [.node "path" (some "inner") none []]]

/-- Minimal well-behaved document: the template is the only child of the
root and carries no descendants. -/
def simpleDoc : Elem :=
  .node "svg" (some "base") none
    [.node "g" (some "g16532") none []]

/-- The value produced by a successful mat_inv, written with the division by
the determinant carried out. -/
def invMat (M : Mat) : Mat :=
  ⟨M.d / matDet M, -M.b / matDet M, -M.c / matDet M, M.a / matDet M,
    -(M.d / matDet M * M.e + -M.c / matDet M * M.f),
    -(-M.b / matDet M * M.e + M.a / matDet M * M.f)⟩

/-! ## Supporting lemmas: Except plumbing -/

theorem except_bind_ok {E A B : Type} (a : A) (f : A → Except E B) :
    (Except.ok a >>= f) = f a := rfl

theorem except_bind_error {E A B : Type} (e : E) (f : A → Except E B) :
    ((Except.error e : Except E A) >>= f) = Except.error e := rfl

theorem except_map_ok {E A B : Type} (a : A) (f : A → B) :
    (Except.ok a : Except E A).map f = Except.ok (f a) := rfl

theorem except_map_error {E A B : Type} (e : E) (f : A → B) :
    (Except.error e : Except E A).map f = Except.error e := rfl

/-! ## Supporting lemmas: lists and the tree -/

theorem getElem?_split {α : Type} (cs : List α) (j : ℕ) (c : α)
    (h : cs[j]? = some c) : ∃ pre post, cs = pre ++ c :: post ∧ pre.length = j := by
  induction cs generalizing j with
  | nil => simp at h
  | cons x xs ih =>
    cases j with
    | zero =>
      simp at h
      exact ⟨[], xs, by simp [h], rfl⟩
    | succ j =>
      simp at h
      obtain ⟨pre, post, h1, h2⟩ := ih j h
      exact ⟨x :: pre, post, by simp [h1], by simp [h2]⟩

theorem set_split {α : Type} (pre post : List α) (c v : α) :
    (pre ++ c :: post).set pre.length v = pre ++ v :: post := by
  induction pre with
  | nil => simp
  | cons x xs ih =>
    show x :: ((xs ++ c :: post).set xs.length v) = x :: (xs ++ v :: post)
    rw [ih]

theorem eraseIdx_split {α : Type} (pre post : List α) (c : α) :
    (pre ++ c :: post).eraseIdx pre.length = pre ++ post := by
  induction pre with
  | nil => simp
  | cons x xs ih =>
    show x :: ((xs ++ c :: post).eraseIdx xs.length) = x :: (xs ++ post)
    rw [ih]

theorem idListL_append (xs ys : List Elem) :
    idListL (xs ++ ys) = idListL xs ++ idListL ys := by
  induction xs with
  | nil => simp [idListL]
  | cons c cs ih => simp [idListL, ih]

theorem idList_node (tag : String) (i tr : Option String) (cs : List Elem) :
    (Elem.node tag i tr cs).idList = i.toList ++ idListL cs := by
  rw [Elem.idList]

/-- Splitting the id list of a tree around a valid path: the subtree's ids
form a contiguous segment, replacement substitutes that segment, and removal
deletes it. -/
theorem getAt_split (q : List ℕ) (t u : Elem) (h : getAt t q = some u) :
    ∃ X Y, t.idList = X ++ u.idList ++ Y ∧
      (∀ v, (setAt t q v).idList = X ++ v.idList ++ Y) ∧
      (q ≠ [] → (removeAt t q).idList = X ++ Y) := by
  induction q generalizing t with
  | nil =>
    simp only [getAt] at h
    obtain rfl : t = u := by injection h
    exact ⟨[], [], by simp, fun v => by simp [setAt], fun hc => absurd rfl hc⟩
  | cons j p ih =>
    obtain ⟨tag, i, tr, cs⟩ := t
    have h' : (match cs[j]? with | some c => getAt c p | none => none) = some u := h
    cases hj : cs[j]? with
    | none =>
      rw [hj] at h'
      cases h'
    | some c =>
      rw [hj] at h'
      obtain ⟨pre, post, hcs, hlen⟩ := getElem?_split cs j c hj
      subst hcs
      cases p with
      | nil =>
        simp only [getAt] at h'
        obtain rfl : c = u := by injection h'
        refine ⟨i.toList ++ idListL pre, idListL post, ?_, ?_, ?_⟩
        · rw [idList_node, idListL_append, idListL]
          simp
        · intro v
          have hset : setAt (Elem.node tag i tr (pre ++ c :: post)) [j] v
              = Elem.node tag i tr ((pre ++ c :: post).set j v) := by
            simp only [setAt, hj]
          rw [hset, ← hlen, set_split, idList_node, idListL_append, idListL]
          simp
        · intro _
          have hrm : removeAt (Elem.node tag i tr (pre ++ c :: post)) [j]
              = Elem.node tag i tr ((pre ++ c :: post).eraseIdx j) := by
            simp only [removeAt]
          rw [hrm, ← hlen, eraseIdx_split, idList_node, idListL_append]
          simp
      | cons p0 ps =>
        obtain ⟨X, Y, hsp, hset, hrem⟩ := ih c h'
        refine ⟨i.toList ++ idListL pre ++ X, Y ++ idListL post, ?_, ?_, ?_⟩
        · rw [idList_node, idListL_append, idListL, hsp]
          simp
        · intro v
          have hs : setAt (Elem.node tag i tr (pre ++ c :: post)) (j :: p0 :: ps) v
              = Elem.node tag i tr ((pre ++ c :: post).set j (setAt c (p0 :: ps) v)) := by
            simp only [setAt, hj]
          rw [hs, ← hlen, set_split, idList_node, idListL_append, idListL, hset v]
          simp
        · intro _
          have hr : removeAt (Elem.node tag i tr (pre ++ c :: post)) (j :: p0 :: ps)
              = Elem.node tag i tr ((pre ++ c :: post).set j (removeAt c (p0 :: ps))) := by
            simp only [removeAt, hj]
          rw [hr, ← hlen, set_split, idList_node, idListL_append, idListL,
            hrem (List.cons_ne_nil p0 ps)]
          simp

/-- setAt on an invalid path leaves the tree unchanged. -/
theorem setAt_of_getAt_none (q : List ℕ) (t v : Elem) (h : getAt t q = none) :
    setAt t q v = t := by
  induction q generalizing t with
  | nil => simp [getAt] at h
  | cons j p ih =>
    obtain ⟨tag, i, tr, cs⟩ := t
    have h' : (match cs[j]? with | some c => getAt c p | none => none) = none := h
    cases hj : cs[j]? with
    | none => simp only [setAt, hj]
    | some c =>
      rw [hj] at h'
      simp only [setAt, hj]
      rw [ih c h']
      obtain ⟨pre, post, hcs, hlen⟩ := getElem?_split cs j c hj
      subst hcs
      rw [← hlen, set_split]

theorem findPathL_some (cs : List Elem) (sid : String) (k : ℕ) (q : List ℕ)
    (h : findPathL cs sid k = some q) :
    ∃ j c p, q = (k + j) :: p ∧ cs[j]? = some c ∧ findPath c sid = some p := by
  induction cs generalizing k with
  | nil => simp [findPathL] at h
  | cons c t ih =>
    have h' : (match findPath c sid with
        | some p => some (k :: p)
        | none => findPathL t sid (k + 1)) = some q := h
    cases hc : findPath c sid with
    | some p =>
      rw [hc] at h'
      injection h' with h''
      exact ⟨0, c, p, by simp [← h''], by simp, hc⟩
    | none =>
      rw [hc] at h'
      obtain ⟨j, c2, p, hq, hj, hp⟩ := ih (k + 1) h'
      refine ⟨j + 1, c2, p, ?_, by simpa using hj, hp⟩
      rw [hq]
      congr 1
      omega

/-- Auxiliary strong induction for findPath_some_getAt. -/
theorem findPath_some_getAt_aux :
    ∀ (n : ℕ) (t : Elem), sizeOf t ≤ n → ∀ (sid : String) (p : List ℕ),
      findPath t sid = some p → ∃ u, getAt t p = some u ∧ u.idAttr = some sid := by
  intro n
  induction n with
  | zero =>
    intro t ht
    obtain ⟨tag, i, tr, cs⟩ := t
    have : 0 < sizeOf (Elem.node tag i tr cs) := by simp
    omega
  | succ n ihn =>
    intro t ht sid p h
    obtain ⟨tag, i, tr, cs⟩ := t
    have h' : (if i = some sid then some [] else findPathL cs sid 0) = some p := h
    by_cases hi : i = some sid
    · rw [if_pos hi] at h'
      injection h' with h''
      subst h''
      exact ⟨Elem.node tag i tr cs, rfl, hi⟩
    · rw [if_neg hi] at h'
      obtain ⟨j, c, p2, hq, hj, hp⟩ := findPathL_some cs sid 0 p h'
      have hmem : c ∈ cs := List.getElem?_mem hj
      have hsz : sizeOf c ≤ n := by
        have h1 := List.sizeOf_lt_of_mem hmem
        have h2 : sizeOf cs < sizeOf (Elem.node tag i tr cs) := by simp
        omega
      obtain ⟨u, hu, hus⟩ := ihn c hsz sid p2 hp
      refine ⟨u, ?_, hus⟩
      subst hq
      simp only [getAt, Nat.zero_add, hj]
      exact hu

/-- A successful findPath leads to an element carrying the looked-up id. -/
theorem findPath_some_getAt (t : Elem) (sid : String) (p : List ℕ)
    (h : findPath t sid = some p) : ∃ u, getAt t p = some u ∧ u.idAttr = some sid :=
  findPath_some_getAt_aux (sizeOf t) t le_rfl sid p h

mutual
theorem findPath_none_notMem (t : Elem) (sid : String)
    (h : findPath t sid = none) : sid ∉ t.idList := by
  obtain ⟨tag, i, tr, cs⟩ := t
  have h' : (if i = some sid then some [] else findPathL cs sid 0) = none := h
  by_cases hi : i = some sid
  · rw [if_pos hi] at h'
    cases h'
  · rw [if_neg hi] at h'
    intro hmem
    rw [idList_node] at hmem
    rcases List.mem_append.1 hmem with hm | hm
    · cases i with
      | none => simp at hm
      | some x =>
        simp at hm
        exact hi (by rw [hm])
    · exact findPathL_none_notMem cs sid 0 h' hm

theorem findPathL_none_notMem (cs : List Elem) (sid : String) (k : ℕ)
    (h : findPathL cs sid k = none) : sid ∉ idListL cs := by
  cases cs with
  | nil => simp [idListL]
  | cons c t =>
    have h' : (match findPath c sid with
        | some p => some (k :: p)
        | none => findPathL t sid (k + 1)) = none := h
    cases hc : findPath c sid with
    | some p =>
      rw [hc] at h'
      cases h'
    | none =>
      rw [hc] at h'
      intro hmem
      rw [idListL] at hmem
      rcases List.mem_append.1 hmem with hm | hm
      · exact findPath_none_notMem c sid hc hm
      · exact findPathL_none_notMem t sid (k + 1) h' hm
end

mutual
theorem sameShape_refl (e : Elem) : sameShape e e = true := by
  obtain ⟨t, i, tr, cs⟩ := e
  rw [sameShape]
  simp [sameShapeL_refl cs]

theorem sameShapeL_refl (cs : List Elem) : sameShapeL cs cs = true := by
  cases cs with
  | nil => rfl
  | cons c t =>
    rw [sameShapeL]
    simp [sameShape_refl c, sameShapeL_refl t]
end

/-- Replacing the root id keeps the shape. -/
theorem sameShape_setId (e : Elem) (sid : String) : sameShape (setId e sid) e = true := by
  obtain ⟨t, i, tr, cs⟩ := e
  rw [setId]
  show sameShape (.node t (some sid) tr cs) (.node t i tr cs) = true
  rw [sameShape]
  simp [sameShapeL_refl cs]

theorem findPath_some_mem (t : Elem) (sid : String) (p : List ℕ)
    (h : findPath t sid = some p) : sid ∈ t.idList := by
  obtain ⟨u, hu, hus⟩ := findPath_some_getAt t sid p h
  obtain ⟨X, Y, hsp, -, -⟩ := getAt_split p t u hu
  rw [hsp]
  have hmu : sid ∈ u.idList := by
    obtain ⟨tag, i, tr, cs⟩ := u
    have : i = some sid := hus
    rw [idList_node, this]
    simp [Option.toList]
  simp only [List.mem_append]
  exact Or.inl (Or.inr hmu)

theorem deleteOne_skip (st : Elem × (List ℕ ⊕ Elem)) (sid : String)
    (h : sid ∉ st.1.idList) : deleteOne st sid = st := by
  have hfp : findPath st.1 sid = none := by
    cases hf : findPath st.1 sid with
    | none => rfl
    | some p => exact absurd (findPath_some_mem st.1 sid p hf) h
  rw [deleteOne, hfp]

theorem deletePhase_skip (ids : List String) (st : Elem × (List ℕ ⊕ Elem))
    (h : ∀ sid ∈ ids, sid ∉ st.1.idList) : deletePhase ids st = st := by
  induction ids with
  | nil => rfl
  | cons sid rest ih =>
    have h1 : deleteOne st sid = st := deleteOne_skip st sid (h sid (by simp))
    show deletePhase rest (deleteOne st sid) = st
    rw [h1]
    exact ih fun s hs => h s (by simp [hs])

theorem deleteOne_idList_sublist (st : Elem × (List ℕ ⊕ Elem)) (sid : String) :
    (deleteOne st sid).1.idList.Sublist st.1.idList := by
  rw [deleteOne]
  cases hf : findPath st.1 sid with
  | none => exact List.Sublist.refl _
  | some d =>
    cases d with
    | nil => exact List.Sublist.refl _
    | cons j p =>
      obtain ⟨u, hu, -⟩ := findPath_some_getAt st.1 sid (j :: p) hf
      obtain ⟨X, Y, hsp, -, hrem⟩ := getAt_split (j :: p) st.1 u hu
      show (removeAt st.1 (j :: p)).idList.Sublist st.1.idList
      rw [hrem (List.cons_ne_nil j p), hsp]
      have h1 : Y.Sublist (u.idList ++ Y) := List.sublist_append_right _ _
      calc (X ++ Y).Sublist (X ++ (u.idList ++ Y)) := List.Sublist.append_left h1 X
        _ = X ++ u.idList ++ Y := by rw [List.append_assoc]

theorem deleteOne_nodup (st : Elem × (List ℕ ⊕ Elem)) (sid : String)
    (h : st.1.idList.Nodup) : (deleteOne st sid).1.idList.Nodup :=
  (deleteOne_idList_sublist st sid).nodup h

theorem deleteOne_idAttr (st : Elem × (List ℕ ⊕ Elem)) (sid : String) :
    (deleteOne st sid).1.idAttr = st.1.idAttr := by
  rw [deleteOne]
  cases hf : findPath st.1 sid with
  | none => rfl
  | some d =>
    cases d with
    | nil => rfl
    | cons j p =>
      show (removeAt st.1 (j :: p)).idAttr = st.1.idAttr
      obtain ⟨tag, i, tr, cs⟩ := st.1
      cases p with
      | nil => rfl
      | cons p0 ps =>
        simp only [removeAt]
        cases cs[j]? <;> rfl

theorem idAttr_findPath (t : Elem) (sid : String) (h : t.idAttr = some sid) :
    findPath t sid = some [] := by
  obtain ⟨tag, i, tr, cs⟩ := t
  have : i = some sid := h
  rw [findPath, if_pos this]

theorem deleteOne_resolves (st : Elem × (List ℕ ⊕ Elem)) (sid : String)
    (h : st.1.idList.Nodup) :
    sid ∉ (deleteOne st sid).1.idList ∨ (deleteOne st sid).1.idAttr = some sid := by
  rw [deleteOne]
  cases hf : findPath st.1 sid with
  | none => exact Or.inl (findPath_none_notMem st.1 sid hf)
  | some d =>
    cases d with
    | nil =>
      obtain ⟨u, hu, hus⟩ := findPath_some_getAt st.1 sid [] hf
      have : u = st.1 := by
        simp only [getAt] at hu
        injection hu with h1
        exact h1.symm
      subst this
      exact Or.inr hus
    | cons j p =>
      obtain ⟨u, hu, hus⟩ := findPath_some_getAt st.1 sid (j :: p) hf
      obtain ⟨X, Y, hsp, -, hrem⟩ := getAt_split (j :: p) st.1 u hu
      left
      show sid ∉ (removeAt st.1 (j :: p)).idList
      rw [hrem (List.cons_ne_nil j p)]
      obtain ⟨tagu, iu, tru, csu⟩ := u
      have hiu : iu = some sid := hus
      rw [idList_node, hiu] at hsp
      have hsl : ((some sid).toList ++ idListL csu) = sid :: idListL csu := by simp
      rw [hsl] at hsp
      rw [hsp] at h
      have h2 : (X ++ ((sid :: idListL csu) ++ Y)).Nodup := by
        rwa [← List.append_assoc]
      have hdisj := List.disjoint_of_nodup_append h2
      have hsidX : sid ∉ X := fun hx => hdisj hx (by simp)
      have h3 : ((sid :: idListL csu) ++ Y).Nodup := (List.nodup_append.1 h2).2.1
      have h4 : (sid :: (idListL csu ++ Y)).Nodup := by simpa using h3
      have hsidY : sid ∉ Y := fun hy => (List.nodup_cons.1 h4).1 (by simp [hy])
      simp only [List.mem_append]
      rintro (hx | hy)
      · exact hsidX hx
      · exact hsidY hy

theorem deleteOne_preserve_resolved (st : Elem × (List ℕ ⊕ Elem)) (sid sid2 : String)
    (h : sid ∉ st.1.idList ∨ st.1.idAttr = some sid) :
    sid ∉ (deleteOne st sid2).1.idList ∨ (deleteOne st sid2).1.idAttr = some sid := by
  cases h with
  | inl h1 =>
    left
    intro hmem
    exact h1 ((deleteOne_idList_sublist st sid2).mem hmem)
  | inr h1 =>
    right
    rw [deleteOne_idAttr]
    exact h1

theorem deleteOne_of_resolved (st : Elem × (List ℕ ⊕ Elem)) (sid : String)
    (h : sid ∉ st.1.idList ∨ st.1.idAttr = some sid) : deleteOne st sid = st := by
  cases h with
  | inl h1 => exact deleteOne_skip st sid h1
  | inr h1 => rw [deleteOne, idAttr_findPath st.1 sid h1]

theorem deletePhase_preserve_resolved (ids : List String)
    (st : Elem × (List ℕ ⊕ Elem)) (sid : String)
    (h : sid ∉ st.1.idList ∨ st.1.idAttr = some sid) :
    sid ∉ (deletePhase ids st).1.idList ∨ (deletePhase ids st).1.idAttr = some sid := by
  induction ids generalizing st with
  | nil => exact h
  | cons sid2 rest ih =>
    exact ih (deleteOne st sid2) (deleteOne_preserve_resolved st sid sid2 h)

theorem deletePhase_nodup (ids : List String) (st : Elem × (List ℕ ⊕ Elem))
    (h : st.1.idList.Nodup) : (deletePhase ids st).1.idList.Nodup := by
  induction ids generalizing st with
  | nil => exact h
  | cons sid rest ih => exact ih (deleteOne st sid) (deleteOne_nodup st sid h)

theorem deletePhase_idList_sublist (ids : List String) (st : Elem × (List ℕ ⊕ Elem)) :
    (deletePhase ids st).1.idList.Sublist st.1.idList := by
  induction ids generalizing st with
  | nil => exact List.Sublist.refl _
  | cons sid rest ih =>
    exact (ih (deleteOne st sid)).trans (deleteOne_idList_sublist st sid)

theorem deletePhase_resolves (ids : List String) (st : Elem × (List ℕ ⊕ Elem))
    (h : st.1.idList.Nodup) (sid : String) (hmem : sid ∈ ids) :
    sid ∉ (deletePhase ids st).1.idList ∨ (deletePhase ids st).1.idAttr = some sid := by
  induction ids generalizing st with
  | nil => cases hmem
  | cons sid2 rest ih =>
    show sid ∉ (deletePhase rest (deleteOne st sid2)).1.idList ∨ _
    rcases List.mem_cons.1 hmem with rfl | hrest
    · exact deletePhase_preserve_resolved rest (deleteOne st sid) sid
        (deleteOne_resolves st sid h)
    · exact ih (deleteOne st sid2) (deleteOne_nodup st sid2 h) hrest

theorem deletePhase_of_resolved (ids : List String) (st : Elem × (List ℕ ⊕ Elem))
    (h : ∀ sid ∈ ids, sid ∉ st.1.idList ∨ st.1.idAttr = some sid) :
    deletePhase ids st = st := by
  induction ids generalizing st with
  | nil => rfl
  | cons sid rest ih =>
    have h1 : deleteOne st sid = st := deleteOne_of_resolved st sid (h sid (by simp))
    show deletePhase rest (deleteOne st sid) = st
    rw [h1]
    exact ih st fun s hs => h s (by simp [hs])

/-! ## Claim C8 -/

/-- C8: The deletion phase never fails on a missing identifier.  Deleting an
identifier absent from the live document is skipped and changes nothing (the
phase is total, so no error can occur); a whole phase over absent identifiers
leaves the state unchanged; and running the phase a second time after a first
run on a document with pairwise-distinct identifiers changes nothing. -/
theorem C8_deletion_idempotent :
    (∀ (st : Elem × (List ℕ ⊕ Elem)) (sid : String),
      sid ∉ st.1.idList → deleteOne st sid = st) ∧
    (∀ (ids : List String) (st : Elem × (List ℕ ⊕ Elem)),
      (∀ sid ∈ ids, sid ∉ st.1.idList) → deletePhase ids st = st) ∧
    (∀ (ids : List String) (st : Elem × (List ℕ ⊕ Elem)),
      st.1.idList.Nodup →
      deletePhase ids (deletePhase ids st) = deletePhase ids st) := by
  refine ⟨deleteOne_skip, deletePhase_skip, ?_⟩
  intro ids st h
  exact deletePhase_of_resolved ids (deletePhase ids st)
    fun sid hs => deletePhase_resolves ids st h sid hs

/-- Witness for C8 at a concrete document: the template-only document, the
real deletion list (which does delete its template), and an absent id. -/
theorem C8_deletion_idempotent_witness :
    ("absent" ∉ simpleDoc.idList ∧ simpleDoc.idList.Nodup) ∧
    deleteOne (simpleDoc, .inl ([] : List ℕ)) "absent" = (simpleDoc, .inl ([] : List ℕ)) ∧
    deletePhase all_to_delete (deletePhase all_to_delete (simpleDoc, .inl ([] : List ℕ)))
      = deletePhase all_to_delete (simpleDoc, .inl ([] : List ℕ)) :=
  ⟨⟨by decide, by decide⟩,
   C8_deletion_idempotent.1 (simpleDoc, .inl ([] : List ℕ)) "absent" (by decide),
   C8_deletion_idempotent.2.2 all_to_delete (simpleDoc, .inl ([] : List ℕ)) (by decide)⟩

/-! ## Claim C4 -/

/-- C4: the i-th generated wrapper's rotation angle is exactly
i * (360/27) * direction, and the 27 angles are pairwise distinct modulo
360 degrees. -/
theorem C4_wrapper_angles :
    (∀ i : ℕ, i < TOTAL_STARS → stampAngle i = (i : ℝ) * (360 / 27) * DIRECTION) ∧
    (∀ i j : ℕ, i < TOTAL_STARS → j < TOTAL_STARS → i ≠ j →
      ∀ k : ℤ, stampAngle i - stampAngle j ≠ (k : ℝ) * 360) := by
  constructor
  · intro i _
    rw [stampAngle, DIRECTION, STEP_DEG, TOTAL_STARS]
    push_cast
    ring
  · intro i j hi hj hne k hk
    rw [stampAngle, stampAngle, DIRECTION, STEP_DEG, TOTAL_STARS] at hk
    push_cast at hk
    have h1 : (i : ℝ) - (j : ℝ) = 27 * (k : ℝ) := by linear_combination (3 / 40 : ℝ) * hk
    have h2 : (i : ℤ) - (j : ℤ) = 27 * k := by exact_mod_cast h1
    rw [TOTAL_STARS] at hi hj
    have : i = j := by omega
    exact hne this

/-- Witness for C4 at concrete indices. -/
theorem C4_wrapper_angles_witness :
    (3 < TOTAL_STARS ∧ stampAngle 3 = (3 : ℝ) * (360 / 27) * DIRECTION) ∧
    (1 < TOTAL_STARS ∧ 0 < TOTAL_STARS ∧ (1 : ℕ) ≠ 0 ∧
      stampAngle 1 - stampAngle 0 ≠ ((5 : ℤ) : ℝ) * 360) :=
  ⟨⟨by norm_num [TOTAL_STARS], C4_wrapper_angles.1 3 (by norm_num [TOTAL_STARS])⟩,
   ⟨by norm_num [TOTAL_STARS], by norm_num [TOTAL_STARS], by norm_num,
    C4_wrapper_angles.2 1 0 (by norm_num [TOTAL_STARS]) (by norm_num [TOTAL_STARS])
      (by norm_num) 5⟩⟩

/-! ## Evaluation helpers for concrete parses -/

theorem pf100 : parseFloat? "100" = some 100 := by
  have h : floatDecomp (stripChars "100".toList) = some (false, 100, 0, false, 0) := by decide
  rw [parseFloat?, h]
  norm_num [floatVal]

theorem pnl100 : parse_number_list "100,100" = .ok [100, 100] := by
  have h1 : splitTokens (stripChars "100,100".toList) = ["100", "100"] := by decide
  rw [parse_number_list, h1]
  simp [floatsOf, pf100, Except.map]

theorem ac_translate : applyCmd mat_identity ("translate", "100,100") = .ok (mat_translate 100 100) := by
  rw [applyCmd]
  dsimp only
  rw [pnl100, except_bind_ok]
  have hc : cmdMatrix "translate" [100, 100] = .ok (mat_translate 100 100) := by
    rw [cmdMatrix]
    rw [show pyLower "translate" = "translate" from by decide]
    simp
  rw [hc, except_bind_ok]
  have hid : mat_mul mat_identity (mat_translate 100 100) = mat_translate 100 100 := by
    rw [mat_mul, mat_identity]
    ext <;> (simp [mat_translate]; try ring)
  rw [show (pure (mat_mul mat_identity (mat_translate 100 100)) : Except String Mat)
      = Except.ok (mat_mul mat_identity (mat_translate 100 100)) from rfl, hid]

theorem pt_translate : parse_transform (some "translate(100,100)") = .ok (mat_translate 100 100) := by
  rw [parse_transform]
  rw [show (stripChars "translate(100,100)".toList).isEmpty = false from by decide]
  simp only [Bool.false_eq_true, if_false]
  rw [show findCmds "translate(100,100)".toList = [("translate", "100,100")] from by decide]
  simp only [List.foldlM]
  rw [ac_translate, except_bind_ok]
  rfl

/-- C2: for the scenario document (template g16532 under a parent chain whose
local-to-global transform is translate(100,100)), the rotation-center
computation maps the global center (750, 515) to the parent-local center
(650.0, 415.0). -/
theorem C2_rotation_center : computeCenter c2doc = .ok (650, 415) := by
  have hfp : findPath c2doc TEMPLATE_ID = some [0, 0] := by decide
  rw [computeCenter, hfp]
  dsimp only
  rw [show ([0, 0] : List ℕ).dropLast = [0] from by decide]
  rw [show ancestorChain c2doc [0] = [c2doc,
    Elem.node "g" (some "layer") (some "translate(100,100)")
      [Elem.node "g" (some "g16532") none []]] from by decide]
  rw [cumulative_transform_to_parent]
  simp only [List.foldlM]
  rw [show (Elem.transformAttr c2doc) = none from rfl]
  rw [show parse_transform none = .ok mat_identity from rfl, except_map_ok, except_bind_ok]
  rw [show (Elem.transformAttr (Elem.node "g" (some "layer") (some "translate(100,100)")
      [Elem.node "g" (some "g16532") none []])) = some "translate(100,100)" from rfl]
  rw [pt_translate, except_map_ok, except_bind_ok]
  have h1 : mat_mul (mat_mul mat_identity mat_identity) (mat_translate 100 100)
      = mat_translate 100 100 := by
    rw [mat_mul, mat_mul, mat_identity, mat_translate]
    ext <;> norm_num
  rw [show (pure (mat_mul (mat_mul mat_identity mat_identity) (mat_translate 100 100))
      : Except String Mat) = Except.ok (mat_mul (mat_mul mat_identity mat_identity)
        (mat_translate 100 100)) from rfl]
  rw [h1, except_bind_ok]
  have h2 : mat_inv (mat_translate 100 100) = .ok ⟨1, 0, 0, 1, -100, -100⟩ := by
    rw [mat_inv, mat_translate]
    rw [if_neg (by norm_num)]
    refine congrArg Except.ok ?_
    ext <;> norm_num
  rw [h2, except_bind_ok]
  rw [show mat_apply ⟨1, 0, 0, 1, -100, -100⟩ GLOBAL_CENTER_X GLOBAL_CENTER_Y
      = (650, 415) from by rw [mat_apply, GLOBAL_CENTER_X, GLOBAL_CENTER_Y]; norm_num]
  rfl

/-! ## Claim C6 -/

theorem mat_inv_ok (M : Mat) (h : ¬ |matDet M| < 1e-12) :
    mat_inv M = .ok (invMat M) := by
  rw [mat_inv]
  rw [show M.a * M.d - M.b * M.c = matDet M from rfl, if_neg h]
  refine congrArg Except.ok ?_
  rw [invMat]
  ext <;> (show _ = _; ring)

theorem matDet_invMat (M : Mat) (h : matDet M ≠ 0) :
    matDet (invMat M) = 1 / matDet M := by
  have h2 : M.a * M.d - M.b * M.c ≠ 0 := by
    simpa only [matDet] using h
  simp only [invMat, matDet]
  field_simp [h2]
  ring

theorem mat_mul_assoc (A B C : Mat) :
    mat_mul (mat_mul A B) C = mat_mul A (mat_mul B C) := by
  ext <;> simp only [mat_mul] <;> ring

theorem mat_mul_id_left (M : Mat) : mat_mul mat_identity M = M := by
  ext <;> simp only [mat_mul, mat_identity] <;> ring

theorem mat_mul_id_right (M : Mat) : mat_mul M mat_identity = M := by
  ext <;> simp only [mat_mul, mat_identity] <;> ring

set_option maxHeartbeats 1000000 in
theorem mat_mul_invMat (M : Mat) (h : matDet M ≠ 0) :
    mat_mul M (invMat M) = mat_identity := by
  have h2 : M.a * M.d - M.b * M.c ≠ 0 := by
    simpa only [matDet] using h
  ext <;>
    simp only [mat_mul, invMat, matDet, mat_identity] <;> field_simp [h2] <;> ring

set_option maxHeartbeats 1000000 in
theorem mat_mul_invMat_left (M : Mat) (h : matDet M ≠ 0) :
    mat_mul (invMat M) M = mat_identity := by
  have h2 : M.a * M.d - M.b * M.c ≠ 0 := by
    simpa only [matDet] using h
  ext <;>
    simp only [mat_mul, invMat, matDet, mat_identity] <;> field_simp [h2] <;> ring

theorem invMat_invMat (M : Mat) (h : matDet M ≠ 0) : invMat (invMat M) = M := by
  have hd : matDet (invMat M) = 1 / matDet M := matDet_invMat M h
  have hdn : matDet (invMat M) ≠ 0 := by
    rw [hd]
    exact one_div_ne_zero h
  calc invMat (invMat M)
      = mat_mul (invMat (invMat M)) (mat_mul (invMat M) M) := by
        rw [mat_mul_invMat_left M h, mat_mul_id_right]
    _ = mat_mul (mat_mul (invMat (invMat M)) (invMat M)) M := by
        rw [mat_mul_assoc]
    _ = mat_mul mat_identity M := by
        rw [mat_mul_invMat_left (invMat M) hdn]
    _ = M := mat_mul_id_left M

/-- C6 as stated is false: M = diag(1e7, 1e7) has |det| = 1e14 above the
1e-12 threshold and inverts fine, but inverting the result fails with the
NonInvertible error, because the inverse's determinant 1e-14 falls below the
threshold — so invert(invert(M)) does not exist, let alone approximate M. -/
theorem C6_counterexample :
    1e-12 ≤ |matDet ⟨1e7, 0, 0, 1e7, 0, 0⟩| ∧
    mat_inv ⟨1e7, 0, 0, 1e7, 0, 0⟩ = .ok ⟨1e-7, 0, 0, 1e-7, 0, 0⟩ ∧
    mat_inv ⟨1e-7, 0, 0, 1e-7, 0, 0⟩ = .error "Non-invertible transform matrix" := by
  refine ⟨by rw [matDet]; norm_num, ?_, ?_⟩
  · rw [mat_inv]
    rw [if_neg (by norm_num)]
    refine congrArg Except.ok ?_
    ext <;> norm_num
  · rw [mat_inv]
    rw [if_pos (by rw [abs_of_pos (by norm_num)]; norm_num)]

/-- C6 (amended): inversion fails with the NonInvertible error exactly when
the absolute determinant of the linear part is below 1e-12; and whenever
|det M| moreover stays at or below 1e12 — so that the inverse's own
determinant 1/det M is not itself refused — double inversion recovers M
exactly and M times its inverse is exactly the identity, in the real-number
model. -/
theorem C6_inverse_amended (M : Mat) :
    ((∃ e, mat_inv M = .error e) ↔ |matDet M| < 1e-12) ∧
    (1e-12 ≤ |matDet M| → |matDet M| ≤ 1e12 →
      mat_inv M = .ok (invMat M) ∧ mat_inv (invMat M) = .ok M ∧
        mat_mul M (invMat M) = mat_identity) := by
  constructor
  · constructor
    · intro ⟨e, he⟩
      by_contra hlt
      rw [mat_inv_ok M hlt] at he
      cases he
    · intro hlt
      refine ⟨"Non-invertible transform matrix", ?_⟩
      rw [mat_inv]
      rw [show M.a * M.d - M.b * M.c = matDet M from rfl, if_pos hlt]
  · intro h1 h2
    have hne : matDet M ≠ 0 := by
      intro h0
      rw [h0] at h1
      norm_num at h1
    have hinv1 : mat_inv M = .ok (invMat M) := mat_inv_ok M (by rw [not_lt]; exact h1)
    have hN : ¬ |matDet (invMat M)| < 1e-12 := by
      rw [matDet_invMat M hne, not_lt, abs_div, abs_one]
      have hpos : 0 < |matDet M| := abs_pos.2 hne
      rw [le_div_iff hpos]
      nlinarith [h2, hpos]
    have hinv2 : mat_inv (invMat M) = .ok M := by
      rw [mat_inv_ok (invMat M) hN, invMat_invMat M hne]
    exact ⟨hinv1, hinv2, mat_mul_invMat M hne⟩

/-- Witness for C6 at the translation matrix translate(3, 4), whose
determinant is 1. -/
theorem C6_inverse_amended_witness :
    (1e-12 ≤ |matDet (mat_translate 3 4)| ∧ |matDet (mat_translate 3 4)| ≤ 1e12) ∧
    (mat_inv (mat_translate 3 4) = .ok (invMat (mat_translate 3 4)) ∧
      mat_inv (invMat (mat_translate 3 4)) = .ok (mat_translate 3 4) ∧
      mat_mul (mat_translate 3 4) (invMat (mat_translate 3 4)) = mat_identity) :=
  ⟨⟨by rw [mat_translate, matDet]; norm_num, by rw [mat_translate, matDet]; norm_num⟩,
   (C6_inverse_amended (mat_translate 3 4)).2
     (by rw [mat_translate, matDet]; norm_num)
     (by rw [mat_translate, matDet]; norm_num)⟩

/-! ## Claim C10 -/

/-- C10: a translate command with exactly one argument tx is treated as
translate(tx, 0), and a scale command with exactly one argument s as the
uniform scale with sx = sy = s. -/
theorem C10_single_argument (acc : Mat) (args : String) (t : ℚ)
    (h : parse_number_list args = .ok [t]) :
    applyCmd acc ("translate", args) = .ok (mat_mul acc (mat_translate (t : ℝ) 0)) ∧
    applyCmd acc ("scale", args) = .ok (mat_mul acc ⟨(t : ℝ), 0, 0, (t : ℝ), 0, 0⟩) := by
  constructor
  · rw [applyCmd]
    dsimp only
    rw [h, except_bind_ok]
    rw [show cmdMatrix "translate" [t] = .ok (mat_translate (t : ℝ) 0) from by
      rw [cmdMatrix, show pyLower "translate" = "translate" from by decide]
      simp]
    rw [except_bind_ok]
    rfl
  · rw [applyCmd]
    dsimp only
    rw [h, except_bind_ok]
    rw [show cmdMatrix "scale" [t] = .ok (⟨(t : ℝ), 0, 0, (t : ℝ), 0, 0⟩ : Mat) from by
      rw [cmdMatrix, show pyLower "scale" = "scale" from by decide]
      simp]
    rw [except_bind_ok]
    rfl

/-- Witness for C10 at the argument string "7". -/
theorem C10_single_argument_witness :
    parse_number_list "7" = .ok [(7 : ℚ)] ∧
    applyCmd mat_identity ("translate", "7")
      = .ok (mat_mul mat_identity (mat_translate ((7 : ℚ) : ℝ) 0)) := by
  have h : parse_number_list "7" = .ok [(7 : ℚ)] := by
    have h1 : splitTokens (stripChars "7".toList) = ["7"] := by decide
    rw [parse_number_list, h1]
    have h2 : parseFloat? "7" = some 7 := by
      rw [parseFloat?,
        show floatDecomp (stripChars "7".toList) = some (false, 7, 0, false, 0) from by decide]
      norm_num [floatVal]
    simp [floatsOf, h2, Except.map]
  exact ⟨h, (C10_single_argument mat_identity "7" 7 h).1⟩

/-! ## Claim C7 -/

/-- C7: command names are matched through str.lower, hence recognised
case-insensitively; any command whose lowered name is not one of matrix,
translate, rotate, scale fails with the Unsupported-command error rather than
being skipped; in particular parsing skewX(10) yields that error. -/
theorem C7_unsupported_command :
    parse_transform (some "skewX(10)") = .error "Unsupported transform cmd: skewX" ∧
    (∀ (acc : Mat) (name args : String) (vals : List ℚ),
      parse_number_list args = .ok vals →
      pyLower name ∉ (["matrix", "translate", "rotate", "scale"] : List String) →
      applyCmd acc (name, args) = .error ("Unsupported transform cmd: " ++ name)) ∧
    (∀ (acc : Mat) (name args : String),
      pyLower name ∈ (["matrix", "translate", "rotate", "scale"] : List String) →
      applyCmd acc (name, args) = applyCmd acc (pyLower name, args)) := by
  refine ⟨?_, ?_, ?_⟩
  · rw [parse_transform]
    rw [show (stripChars "skewX(10)".toList).isEmpty = false from by decide]
    simp only [Bool.false_eq_true, if_false]
    rw [show findCmds "skewX(10)".toList = [("skewX", "10")] from by decide]
    simp only [List.foldlM]
    rw [applyCmd]
    dsimp only
    have h10 : parse_number_list "10" = .ok [10] := by
      have h1 : splitTokens (stripChars "10".toList) = ["10"] := by decide
      rw [parse_number_list, h1]
      have h2 : parseFloat? "10" = some 10 := by
        rw [parseFloat?,
          show floatDecomp (stripChars "10".toList) = some (false, 10, 0, false, 0) from by decide]
        norm_num [floatVal]
      simp [floatsOf, h2, Except.map]
    rw [h10, except_bind_ok]
    rw [show cmdMatrix "skewX" [10] = .error "Unsupported transform cmd: skewX" from by
      rw [cmdMatrix, show pyLower "skewX" = "skewx" from by decide]
      simp]
    rw [except_bind_error, except_bind_error]
  · intro acc name args vals h hmem
    simp only [List.mem_cons, List.not_mem_nil, or_false, not_or] at hmem
    obtain ⟨h1, h2, h3, h4⟩ := hmem
    rw [applyCmd]
    dsimp only
    rw [h, except_bind_ok]
    rw [cmdMatrix.eq_def, if_neg h1, if_neg h2, if_neg h3, if_neg h4, except_bind_error]
  · intro acc name args hmem
    rw [applyCmd, applyCmd]
    dsimp only
    cases hp : parse_number_list args with
    | error e => rw [except_bind_error, except_bind_error]
    | ok vals =>
      rw [except_bind_ok, except_bind_ok]
      have hcm : cmdMatrix name vals = cmdMatrix (pyLower name) vals := by
        simp only [List.mem_cons, List.not_mem_nil, or_false] at hmem
        rcases hmem with h4 | h4 | h4 | h4 <;>
          (rw [cmdMatrix.eq_def, cmdMatrix.eq_def, h4] <;>
            first
            | rw [show pyLower "matrix" = "matrix" from by decide]
            | rw [show pyLower "translate" = "translate" from by decide]
            | rw [show pyLower "rotate" = "rotate" from by decide]
            | rw [show pyLower "scale" = "scale" from by decide]) <;>
          simp
      rw [hcm]

/-- Witness for C7: a concrete unsupported command and a concrete upper-case
recognised command. -/
theorem C7_unsupported_command_witness :
    parse_number_list "" = .ok [] ∧
    pyLower "skewY" ∉ (["matrix", "translate", "rotate", "scale"] : List String) ∧
    applyCmd mat_identity ("skewY", "") = .error ("Unsupported transform cmd: " ++ "skewY") ∧
    pyLower "MATRIX" ∈ (["matrix", "translate", "rotate", "scale"] : List String) ∧
    applyCmd mat_identity ("MATRIX", "") = applyCmd mat_identity (pyLower "MATRIX", "") :=
  ⟨rfl, by decide,
   C7_unsupported_command.2.1 mat_identity "skewY" "" [] rfl (by decide),
   by decide,
   C7_unsupported_command.2.2 mat_identity "MATRIX" "" (by decide)⟩

/-! ## Supporting lemmas: the regex scanner -/

theorem dropWhile_length_lt_of_takeWhile_ne_nil {p : Char → Bool} (cs : List Char)
    (h : cs.takeWhile p ≠ []) : (cs.dropWhile p).length < cs.length := by
  have hlen := congrArg List.length (List.takeWhile_append_dropWhile (p := p) (l := cs))
  rw [List.length_append] at hlen
  have hpos : 0 < (cs.takeWhile p).length := List.length_pos.2 h
  omega

theorem tryCmd_some_length (cs : List Char) (p : String × String) (rest : List Char)
    (h : tryCmd cs = some (p, rest)) : rest.length < cs.length := by
  simp only [tryCmd] at h
  split at h
  · exact absurd h (by simp)
  · rename_i hne
    split at h
    · rename_i hdrop
      split at h
      · rename_i rest2 hdw
        simp only [Option.some.injEq, Prod.mk.injEq] at h
        obtain ⟨-, hres⟩ := h
        subst hres
        rename_i x1 R
        have htk : cs.takeWhile isAsciiLetter ≠ [] := by
          intro hc
          rw [List.isEmpty_iff] at hne
          exact hne hc
        have h1 : (cs.dropWhile isAsciiLetter).length < cs.length :=
          dropWhile_length_lt_of_takeWhile_ne_nil cs htk
        have h2 : ((cs.dropWhile isAsciiLetter).dropWhile isPySpace).length
            ≤ (cs.dropWhile isAsciiLetter).length :=
          ((cs.dropWhile isAsciiLetter).dropWhile_sublist isPySpace).length_le
        have h3 : x1.length < ((cs.dropWhile isAsciiLetter).dropWhile isPySpace).length := by
          rw [hdrop]
          simp
        have h4 : rest2.length < x1.length := by
          have hlen := (x1.dropWhile_sublist (fun c2 => c2 != ')')).length_le
          rw [hdw] at hlen
          simp at hlen
          omega
        omega
      · exact absurd h (by simp)
    · exact absurd h (by simp)

theorem findCmdsF_stable : ∀ (fuel : ℕ) (cs : List Char), cs.length ≤ fuel →
    findCmdsF fuel cs = findCmds cs := by
  intro fuel
  induction fuel using Nat.strong_induction_on with
  | _ fuel ih =>
    intro cs h
    match fuel, cs with
    | 0, cs =>
      obtain rfl : cs = [] := List.eq_nil_of_length_eq_zero (Nat.le_zero.1 h)
      rfl
    | f + 1, [] => rfl
    | f + 1, ch :: t =>
      have ht : t.length ≤ f := by
        simp only [List.length_cons] at h
        omega
      cases htc : tryCmd (ch :: t) with
      | some pr =>
        obtain ⟨p, rest⟩ := pr
        have hlen : rest.length ≤ t.length := by
          have hl2 := tryCmd_some_length (ch :: t) p rest htc
          simp only [List.length_cons] at hl2
          omega
        have e1 : findCmdsF (f + 1) (ch :: t) = p :: findCmdsF f rest := by
          rw [findCmdsF, htc]
        have e2 : findCmds (ch :: t) = p :: findCmdsF t.length rest := by
          rw [findCmds, show (ch :: t).length = t.length + 1 from rfl, findCmdsF, htc]
        rw [e1, e2, ih f (by omega) rest (by omega), ih t.length (by omega) rest hlen]
      | none =>
        have e1 : findCmdsF (f + 1) (ch :: t) = findCmdsF f t := by
          rw [findCmdsF, htc]
        have e2 : findCmds (ch :: t) = findCmdsF t.length t := by
          rw [findCmds, show (ch :: t).length = t.length + 1 from rfl, findCmdsF, htc]
        rw [e1, e2, ih f (by omega) t ht, ih t.length (by omega) t le_rfl]

theorem findCmds_cons (ch : Char) (t : List Char) :
    findCmds (ch :: t) = match tryCmd (ch :: t) with
      | some (p, rest) => p :: findCmds rest
      | none => findCmds t := by
  cases htc : tryCmd (ch :: t) with
  | some pr =>
    obtain ⟨p, rest⟩ := pr
    have hlen : rest.length ≤ t.length := by
      have hl2 := tryCmd_some_length (ch :: t) p rest htc
      simp only [List.length_cons] at hl2
      omega
    rw [findCmds, show (ch :: t).length = t.length + 1 from rfl, findCmdsF, htc]
    dsimp only
    rw [findCmdsF_stable t.length rest hlen]
  | none =>
    rw [findCmds, show (ch :: t).length = t.length + 1 from rfl, findCmdsF, htc]
    dsimp only
    rw [findCmdsF_stable t.length t le_rfl]

theorem tryCmd_none_of_head_not_alpha (ch : Char) (t : List Char)
    (h : isAsciiLetter ch = false) : tryCmd (ch :: t) = none := by
  simp [tryCmd, List.takeWhile_cons, h]

theorem tryCmd_none_of_no_paren (cs : List Char) (h : '(' ∉ cs) : tryCmd cs = none := by
  cases htc : tryCmd cs with
  | none => rfl
  | some pr =>
    exfalso
    simp only [tryCmd] at htc
    split at htc
    · exact absurd htc (by simp)
    · split at htc
      · rename_i hdrop
        apply h
        have h1 : '(' ∈ (cs.dropWhile isAsciiLetter).dropWhile isPySpace := by
          rw [hdrop]
          simp
        have h2 : '(' ∈ cs.dropWhile isAsciiLetter :=
          ((cs.dropWhile isAsciiLetter).dropWhile_sublist isPySpace).mem h1
        exact (cs.dropWhile_sublist isAsciiLetter).mem h2
      · exact absurd htc (by simp)

theorem findCmds_nil_of_no_paren (cs : List Char) (h : '(' ∉ cs) : findCmds cs = [] := by
  induction cs with
  | nil => rfl
  | cons ch t ih =>
    rw [findCmds_cons, tryCmd_none_of_no_paren (ch :: t) h]
    exact ih fun hc => h (by simp [hc])

theorem findCmds_garbage_drop (g s : List Char)
    (h : ∀ ch ∈ g, isAsciiLetter ch = false) : findCmds (g ++ s) = findCmds s := by
  induction g with
  | nil => rfl
  | cons ch g2 ih =>
    rw [show (ch :: g2) ++ s = ch :: (g2 ++ s) from rfl, findCmds_cons,
      tryCmd_none_of_head_not_alpha ch (g2 ++ s) (h ch (by simp))]
    exact ih fun c hc => h c (by simp [hc])

theorem takeWhile_append_all {p : Char → Bool} (xs ys : List Char)
    (h : ∀ x ∈ xs, p x = true) : (xs ++ ys).takeWhile p = xs ++ ys.takeWhile p := by
  induction xs with
  | nil => rfl
  | cons x t ih =>
    rw [List.cons_append, List.takeWhile_cons]
    rw [h x (by simp), ih fun c hc => h c (by simp [hc])]
    simp

theorem dropWhile_append_all {p : Char → Bool} (xs ys : List Char)
    (h : ∀ x ∈ xs, p x = true) : (xs ++ ys).dropWhile p = ys.dropWhile p := by
  induction xs with
  | nil => rfl
  | cons x t ih =>
    rw [List.cons_append, List.dropWhile_cons]
    rw [h x (by simp)]
    simpa using ih fun c hc => h c (by simp [hc])

theorem takeWhile_head_false {p : Char → Bool} (ys : List Char)
    (h : ∀ ch, ys.head? = some ch → p ch = false) : ys.takeWhile p = [] := by
  cases ys with
  | nil => rfl
  | cons c t =>
    rw [List.takeWhile_cons, h c rfl]
    simp

theorem dropWhile_head_false {p : Char → Bool} (ys : List Char)
    (h : ∀ ch, ys.head? = some ch → p ch = false) : ys.dropWhile p = ys := by
  cases ys with
  | nil => rfl
  | cons c t =>
    rw [List.dropWhile_cons, h c rfl]
    simp

theorem tryCmd_bare_name (name rest : List Char) (hne : name ≠ [])
    (halpha : ∀ ch ∈ name, isAsciiLetter ch = true)
    (hhead : ∀ ch, rest.head? = some ch → isAsciiLetter ch = false)
    (hpar : ∀ ch, (rest.dropWhile isPySpace).head? = some ch → ch ≠ '(') :
    tryCmd (name ++ rest) = none := by
  have htw : (name ++ rest).takeWhile isAsciiLetter = name := by
    rw [takeWhile_append_all name rest halpha, takeWhile_head_false rest hhead,
      List.append_nil]
  have hdw : (name ++ rest).dropWhile isAsciiLetter = rest := by
    rw [dropWhile_append_all name rest halpha, dropWhile_head_false rest hhead]
  simp only [tryCmd, htw, hdw]
  rw [if_neg (by simpa using hne)]
  cases hdws : rest.dropWhile isPySpace with
  | nil => rfl
  | cons c R =>
    have hc : c ≠ '(' := hpar c (by rw [hdws]; rfl)
    split
    · rename_i heq
      injection heq with h1 h2
      exact absurd h1 hc
    · rfl

theorem findCmds_alpha_drop (name rest : List Char)
    (halpha : ∀ ch ∈ name, isAsciiLetter ch = true)
    (hhead : ∀ ch, rest.head? = some ch → isAsciiLetter ch = false)
    (hpar : ∀ ch, (rest.dropWhile isPySpace).head? = some ch → ch ≠ '(') :
    findCmds (name ++ rest) = findCmds rest := by
  induction name with
  | nil => rfl
  | cons ch t ih =>
    have hnone := tryCmd_bare_name (ch :: t) rest (by simp) halpha hhead hpar
    rw [show (ch :: t) ++ rest = ch :: (t ++ rest) from rfl] at hnone
    rw [show (ch :: t) ++ rest = ch :: (t ++ rest) from rfl, findCmds_cons, hnone]
    exact ih fun c hc => halpha c (by simp [hc])

theorem stripChars_nil_all_space (cs : List Char) (h : stripChars cs = []) :
    ∀ c ∈ cs, isPySpace c = true := by
  rw [stripChars] at h
  have h1 : (cs.dropWhile isPySpace).reverse.dropWhile isPySpace = [] := by
    have h2 := congrArg List.reverse h
    simpa using h2
  have h3 : ∀ x ∈ (cs.dropWhile isPySpace).reverse, isPySpace x = true :=
    List.dropWhile_eq_nil_iff.1 h1
  have h4 : cs.dropWhile isPySpace = [] := by
    cases hd : cs.dropWhile isPySpace with
    | nil => rfl
    | cons c t =>
      exfalso
      have h5 : isPySpace c = true := by
        apply h3
        rw [hd]
        simp
      have h6 := List.head?_dropWhile_not (p := isPySpace) (l := cs)
      rw [hd] at h6
      simp at h6
      rw [h5] at h6
      cases h6
  intro c hc
  by_contra hns
  have h7 : ∀ x ∈ cs, isPySpace x = true := List.dropWhile_eq_nil_iff.1 h4
  exact hns (h7 c hc)

theorem parse_transform_eq_fold (s : String) :
    parse_transform (some s) = (findCmds s.toList).foldlM applyCmd mat_identity := by
  rw [parse_transform]
  cases hst : (stripChars s.toList).isEmpty with
  | false => simp only [Bool.false_eq_true, if_false]
  | true =>
    simp only [if_pos rfl, if_true]
    have hsp : ∀ c ∈ s.toList, isPySpace c = true :=
      stripChars_nil_all_space s.toList (List.isEmpty_iff.1 hst)
    have hnp : '(' ∉ s.toList := by
      intro hc
      exact absurd (hsp '(' hc) (by decide)
    rw [findCmds_nil_of_no_paren s.toList hnp]
    rfl

/-! ## Claim C9 -/

/-- C9: the parser silently drops attribute text that does not match the
name-parenthesis pattern.  A nonempty string without any parenthesis parses
to the identity matrix instead of failing; a prefix containing no letters is
dropped (so stray symbol garbage before or between well-formed commands has
no effect); and a run of letters not followed by a parenthesis (a command
name without parentheses) is likewise dropped. -/
theorem C9_garbage_ignored :
    (∀ s : String, s ≠ "" → '(' ∉ s.toList →
      parse_transform (some s) = .ok mat_identity) ∧
    (∀ g s : List Char, (∀ ch ∈ g, isAsciiLetter ch = false) →
      parse_transform (some (String.mk (g ++ s))) = parse_transform (some (String.mk s))) ∧
    (∀ name rest : List Char, (∀ ch ∈ name, isAsciiLetter ch = true) →
      (∀ ch, rest.head? = some ch → isAsciiLetter ch = false) →
      (∀ ch, (rest.dropWhile isPySpace).head? = some ch → ch ≠ '(') →
      parse_transform (some (String.mk (name ++ rest)))
        = parse_transform (some (String.mk rest))) := by
  refine ⟨?_, ?_, ?_⟩
  · intro s _ hnp
    rw [parse_transform_eq_fold, findCmds_nil_of_no_paren s.toList hnp]
    rfl
  · intro g s hg
    rw [parse_transform_eq_fold, parse_transform_eq_fold]
    rw [show (String.mk (g ++ s)).toList = g ++ s from rfl,
      show (String.mk s).toList = s from rfl]
    rw [findCmds_garbage_drop g s hg]
  · intro name rest halpha hhead hpar
    rw [parse_transform_eq_fold, parse_transform_eq_fold]
    rw [show (String.mk (name ++ rest)).toList = name ++ rest from rfl,
      show (String.mk rest).toList = rest from rfl]
    rw [findCmds_alpha_drop name rest halpha hhead hpar]

/-- Witness for C9 at concrete garbage strings. -/
theorem C9_garbage_ignored_witness :
    ("@&!" ≠ "" ∧ '(' ∉ "@&!".toList ∧ parse_transform (some "@&!") = .ok mat_identity) ∧
    ((∀ ch ∈ ("#? ".toList : List Char), isAsciiLetter ch = false) ∧
      parse_transform (some (String.mk ("#? ".toList ++ "scale(2)".toList)))
        = parse_transform (some (String.mk "scale(2)".toList))) ∧
    ((∀ ch ∈ ("rot".toList : List Char), isAsciiLetter ch = true) ∧
      parse_transform (some (String.mk ("rot".toList ++ " 5, x".toList)))
        = parse_transform (some (String.mk " 5, x".toList))) :=
  ⟨⟨by decide, by decide, C9_garbage_ignored.1 "@&!" (by decide) (by decide)⟩,
   ⟨by decide, C9_garbage_ignored.2.1 "#? ".toList "scale(2)".toList (by decide)⟩,
   ⟨by decide,
    C9_garbage_ignored.2.2 "rot".toList " 5, x".toList (by decide)
      (by
        intro ch h
        have h2 : ch = ' ' := by
          simpa using h.symm
        subst h2
        decide)
      (by
        intro ch h
        have h2 : ch = '5' := by
          have h3 : (" 5, x".toList.dropWhile isPySpace) = "5, x".toList := by decide
          rw [h3] at h
          simpa using h.symm
        subst h2
        decide)⟩⟩

/-! ## Claim C3 -/

/-- Rounding to 12 significant decimal digits moves a value by at most
1e-9 times its magnitude. -/
theorem round12_close (x : ℝ) : |round12 x - x| ≤ 1e-9 * |x| := by
  rw [round12]
  by_cases hx : x = 0
  · rw [if_pos hx, hx]
    simp
  · rw [if_neg hx]
    have hxpos : 0 < |x| := abs_pos.2 hx
    have hzle : (10 : ℝ) ^ (Int.log 10 |x|) ≤ |x| :=
      Int.zpow_log_le_self (by norm_num) hxpos
    have hpow : (0 : ℝ) < (10 : ℝ) ^ (Int.log 10 |x| - 11) :=
      zpow_pos (by norm_num) _
    have hr : |(round (x / 10 ^ (Int.log 10 |x| - 11)) : ℝ)
        - x / 10 ^ (Int.log 10 |x| - 11)| ≤ 1 / 2 := by
      rw [abs_sub_comm]
      exact abs_sub_round _
    have keyeq : (round (x / 10 ^ (Int.log 10 |x| - 11)) : ℝ) * 10 ^ (Int.log 10 |x| - 11) - x
        = ((round (x / 10 ^ (Int.log 10 |x| - 11)) : ℝ)
            - x / 10 ^ (Int.log 10 |x| - 11)) * 10 ^ (Int.log 10 |x| - 11) := by
      field_simp
    rw [keyeq, abs_mul, abs_of_pos hpow]
    have h2 : |(round (x / 10 ^ (Int.log 10 |x| - 11)) : ℝ)
          - x / 10 ^ (Int.log 10 |x| - 11)| * 10 ^ (Int.log 10 |x| - 11)
        ≤ (1 / 2) * 10 ^ (Int.log 10 |x| - 11) :=
      mul_le_mul_of_nonneg_right hr (le_of_lt hpow)
    have h3 : (10 : ℝ) ^ (Int.log 10 |x| - 11)
        = 10 ^ (Int.log 10 |x|) * (10 : ℝ) ^ (-11 : ℤ) := by
      rw [← zpow_add₀ (by norm_num : (10 : ℝ) ≠ 0), Int.sub_eq_add_neg]
    have h5 : (10 : ℝ) ^ (-11 : ℤ) = 1e-11 := by norm_num
    have h4 : (1 / 2 : ℝ) * 10 ^ (Int.log 10 |x| - 11) ≤ 1e-9 * |x| := by
      rw [h3, h5]
      nlinarith [hzle, hxpos]
    linarith

/-- C3 as stated is false: the serialisation keeps only 12 significant
digits, so for the well-formed string translate(123456789012345) the
translation entry moves by 345 on the round trip, far beyond the absolute
1e-9 tolerance. -/
theorem C3_counterexample :
    parse_transform (some "translate(123456789012345)")
      = .ok (mat_translate 123456789012345 0) ∧
    ¬ |(matrix_to_svg_reparsed (mat_translate 123456789012345 0)).e
        - (mat_translate 123456789012345 0).e| ≤ 1e-9 := by
  constructor
  · rw [parse_transform]
    rw [show (stripChars "translate(123456789012345)".toList).isEmpty = false from by decide]
    simp only [Bool.false_eq_true, if_false]
    rw [show findCmds "translate(123456789012345)".toList
        = [("translate", "123456789012345")] from by decide]
    simp only [List.foldlM]
    rw [applyCmd]
    dsimp only
    have hnum : parse_number_list "123456789012345" = .ok [123456789012345] := by
      have h1 : splitTokens (stripChars "123456789012345".toList)
          = ["123456789012345"] := by decide
      rw [parse_number_list, h1]
      have h2 : parseFloat? "123456789012345" = some 123456789012345 := by
        rw [parseFloat?, show floatDecomp (stripChars "123456789012345".toList)
            = some (false, 123456789012345, 0, false, 0) from by decide]
        norm_num [floatVal]
      simp [floatsOf, h2, Except.map]
    rw [hnum, except_bind_ok]
    rw [show cmdMatrix "translate" [123456789012345]
        = .ok (mat_translate ((123456789012345 : ℚ) : ℝ) 0) from by
      rw [cmdMatrix, show pyLower "translate" = "translate" from by decide]
      simp]
    rw [except_bind_ok, mat_mul_id_left]
    rw [show ((123456789012345 : ℚ) : ℝ) = 123456789012345 from by norm_num]
    rfl
  · have he : (mat_translate 123456789012345 0).e = (123456789012345 : ℝ) := rfl
    have hre : (matrix_to_svg_reparsed (mat_translate 123456789012345 0)).e
        = round12 (123456789012345 : ℝ) := rfl
    rw [he, hre]
    have hlog : Int.log 10 |(123456789012345 : ℝ)| = 14 := by
      rw [abs_of_pos (by norm_num)]
      rw [show (123456789012345 : ℝ) = ((123456789012345 : ℕ) : ℝ) from by norm_num]
      rw [Int.log_natCast]
      have hnl : Nat.log 10 123456789012345 = 14 :=
        Nat.log_eq_of_pow_le_of_lt_pow (by norm_num) (by norm_num)
      rw [hnl]
      rfl
    have h10 : ((10 : ℝ) ^ ((14 : ℤ) - 11)) = 1000 := by
      rw [show ((14 : ℤ) - 11) = ((3 : ℕ) : ℤ) from by norm_num, zpow_natCast]
      norm_num
    have hround : round ((123456789012345 : ℝ) / 1000) = 123456789012 := by
      rw [round_eq]
      have hfl : ⌊(123456789012345 : ℝ) / 1000 + 1 / 2⌋ = 123456789012 := by
        rw [Int.floor_eq_iff]
        norm_num
      exact hfl
    have hr12 : round12 (123456789012345 : ℝ) = 123456789012000 := by
      rw [round12, if_neg (by norm_num), hlog, h10, hround]
      norm_num
    rw [hr12]
    rw [show |(123456789012000 : ℝ) - 123456789012345| = 345 from by
      rw [abs_of_neg (by norm_num)]
      norm_num]
    norm_num

/-- C3 (amended): for every transform attribute string that parses, the
serialise-then-re-parse round trip moves each of the six free entries by at
most 1e-9 times that entry's own magnitude — a relative tolerance; the
absolute tolerance of the original claim holds only for entries of modest
size. -/
theorem C3_roundtrip_relative (s : String) (M : Mat)
    (h : parse_transform (some s) = .ok M) :
    |(matrix_to_svg_reparsed M).a - M.a| ≤ 1e-9 * |M.a| ∧
    |(matrix_to_svg_reparsed M).b - M.b| ≤ 1e-9 * |M.b| ∧
    |(matrix_to_svg_reparsed M).c - M.c| ≤ 1e-9 * |M.c| ∧
    |(matrix_to_svg_reparsed M).d - M.d| ≤ 1e-9 * |M.d| ∧
    |(matrix_to_svg_reparsed M).e - M.e| ≤ 1e-9 * |M.e| ∧
    |(matrix_to_svg_reparsed M).f - M.f| ≤ 1e-9 * |M.f| :=
  ⟨round12_close M.a, round12_close M.b, round12_close M.c,
   round12_close M.d, round12_close M.e, round12_close M.f⟩

/-- Witness for C3 at the string scale(2). -/
theorem C3_roundtrip_relative_witness :
    parse_transform (some "scale(2)") = .ok ⟨2, 0, 0, 2, 0, 0⟩ ∧
    |(matrix_to_svg_reparsed ⟨2, 0, 0, 2, 0, 0⟩).a - (⟨2, 0, 0, 2, 0, 0⟩ : Mat).a|
      ≤ 1e-9 * |(⟨2, 0, 0, 2, 0, 0⟩ : Mat).a| := by
  have h : parse_transform (some "scale(2)") = .ok ⟨2, 0, 0, 2, 0, 0⟩ := by
    rw [parse_transform]
    rw [show (stripChars "scale(2)".toList).isEmpty = false from by decide]
    simp only [Bool.false_eq_true, if_false]
    rw [show findCmds "scale(2)".toList = [("scale", "2")] from by decide]
    simp only [List.foldlM]
    rw [applyCmd]
    dsimp only
    have hnum : parse_number_list "2" = .ok [2] := by
      have h1 : splitTokens (stripChars "2".toList) = ["2"] := by decide
      rw [parse_number_list, h1]
      have h2 : parseFloat? "2" = some 2 := by
        rw [parseFloat?, show floatDecomp (stripChars "2".toList)
            = some (false, 2, 0, false, 0) from by decide]
        norm_num [floatVal]
      simp [floatsOf, h2, Except.map]
    rw [hnum, except_bind_ok]
    rw [show cmdMatrix "scale" [2] = .ok (⟨((2 : ℚ) : ℝ), 0, 0, ((2 : ℚ) : ℝ), 0, 0⟩ : Mat) from by
      rw [cmdMatrix, show pyLower "scale" = "scale" from by decide]
      simp]
    rw [except_bind_ok, mat_mul_id_left]
    rw [show ((2 : ℚ) : ℝ) = 2 from by norm_num]
    rfl
  exact ⟨h, (C3_roundtrip_relative "scale(2)" ⟨2, 0, 0, 2, 0, 0⟩ h).1⟩

/-! ## Claim C5 -/

theorem stampAll_general (snapshot : Elem) (fmt : ℝ → String) (cx cy : ℝ)
    (l : List ℕ) :
    ∀ st : List String × List Elem,
      ∃ W, (l.foldl (stampStep snapshot fmt cx cy) st).2 = st.2 ++ W ∧
        W.length = l.length ∧
        ∀ w ∈ W, w.tag = WRAPPER_TAG ∧
          ∃ sid copy, w.children = [copy] ∧ copy = setId snapshot sid := by
  induction l with
  | nil =>
    intro st
    exact ⟨[], by simp, rfl, by simp⟩
  | cons i rest ih =>
    intro st
    obtain ⟨W2, hw2, hlen2, hshape2⟩ := ih (stampStep snapshot fmt cx cy st i)
    refine ⟨(stampStep snapshot fmt cx cy st i).2.drop st.2.length ++ W2, ?_, ?_, ?_⟩
    · rw [List.foldl_cons, hw2]
      rw [show (stampStep snapshot fmt cx cy st i).2 = st.2 ++
        [Elem.node WRAPPER_TAG
          (some (mintWrap (mintStar (TEMPLATE_ID ++ "_new" ++ pad2 i) st.1)
            (mintStar (TEMPLATE_ID ++ "_new" ++ pad2 i) st.1 :: st.1)))
          (some ("rotate(" ++ fmt (stampAngle i) ++ " " ++ fmt cx ++ " " ++ fmt cy ++ ")"))
          [setId snapshot (mintStar (TEMPLATE_ID ++ "_new" ++ pad2 i) st.1)]] from rfl]
      simp
    · rw [show (stampStep snapshot fmt cx cy st i).2 = st.2 ++
        [Elem.node WRAPPER_TAG
          (some (mintWrap (mintStar (TEMPLATE_ID ++ "_new" ++ pad2 i) st.1)
            (mintStar (TEMPLATE_ID ++ "_new" ++ pad2 i) st.1 :: st.1)))
          (some ("rotate(" ++ fmt (stampAngle i) ++ " " ++ fmt cx ++ " " ++ fmt cy ++ ")"))
          [setId snapshot (mintStar (TEMPLATE_ID ++ "_new" ++ pad2 i) st.1)]] from rfl]
      simp [hlen2]
    · intro w hw
      rw [show (stampStep snapshot fmt cx cy st i).2 = st.2 ++
        [Elem.node WRAPPER_TAG
          (some (mintWrap (mintStar (TEMPLATE_ID ++ "_new" ++ pad2 i) st.1)
            (mintStar (TEMPLATE_ID ++ "_new" ++ pad2 i) st.1 :: st.1)))
          (some ("rotate(" ++ fmt (stampAngle i) ++ " " ++ fmt cx ++ " " ++ fmt cy ++ ")"))
          [setId snapshot (mintStar (TEMPLATE_ID ++ "_new" ++ pad2 i) st.1)]] from rfl] at hw
      simp only [List.drop_append_eq_append_drop, List.drop_length, List.nil_append,
        List.mem_append] at hw
      rcases hw with hw | hw
      · have hw2 : w ∈ [Elem.node WRAPPER_TAG
            (some (mintWrap (mintStar (TEMPLATE_ID ++ "_new" ++ pad2 i) st.1)
              (mintStar (TEMPLATE_ID ++ "_new" ++ pad2 i) st.1 :: st.1)))
            (some ("rotate(" ++ fmt (stampAngle i) ++ " " ++ fmt cx ++ " " ++ fmt cy ++ ")"))
            [setId snapshot (mintStar (TEMPLATE_ID ++ "_new" ++ pad2 i) st.1)]] := by
          have := List.mem_of_mem_drop hw
          simpa using this
        simp only [List.mem_singleton] at hw2
        subst hw2
        exact ⟨rfl, mintStar (TEMPLATE_ID ++ "_new" ++ pad2 i) st.1, _, rfl, rfl⟩
      · exact hshape2 w hw

theorem stampAll_spec (snapshot : Elem) (fmt : ℝ → String) (cx cy : ℝ)
    (ids : List String) :
    (stampAll snapshot fmt cx cy ids).length = TOTAL_STARS ∧
    ∀ w ∈ stampAll snapshot fmt cx cy ids, w.tag = WRAPPER_TAG ∧
      ∃ sid copy, w.children = [copy] ∧ copy = setId snapshot sid := by
  obtain ⟨W, hw, hlen, hshape⟩ :=
    stampAll_general snapshot fmt cx cy (List.range TOTAL_STARS) (ids, [])
  have hempty : stampAll snapshot fmt cx cy ids = W := by
    rw [stampAll, hw]
    simp
  rw [hempty]
  exact ⟨by rw [hlen]; simp, hshape⟩

/-- C5: when the template exists and is not the document root, the run
succeeds and appends exactly TOTAL_STARS fresh wrapper elements at the end of
the child list of the template's original parent (the starParent component,
which is part of the output tree whenever the deletion phase did not detach
it); each wrapper holds exactly one copy whose subtree is structurally
identical to the original template's snapshot up to identifier attributes. -/
theorem C5_stamp_structure (fmt : ℝ → String) (cx cy : ℝ) (doc : Elem)
    (p : List ℕ) (hp : findPath doc TEMPLATE_ID = some p) (hne : p ≠ []) :
    ∃ o : RunOut, runMain fmt cx cy doc = some o ∧
      ∃ (mid : Elem) (W : List Elem),
        o.starParent = appendChildren mid W ∧
        W.length = TOTAL_STARS ∧
        ∀ w ∈ W, w.tag = WRAPPER_TAG ∧
          ∃ copy : Elem, w.children = [copy] ∧
            sameShape copy ((getAt doc p).getD emptyElem) = true := by
  cases p with
  | nil => exact absurd rfl hne
  | cons j p2 =>
    rw [runMain.eq_def, hp]
    dsimp only
    obtain ⟨hlen, hshape⟩ := stampAll_spec ((getAt doc (j :: p2)).getD emptyElem) fmt cx cy
      (deletePhase all_to_delete (doc, .inl (j :: p2).dropLast)).1.idList
    cases hsp : (deletePhase all_to_delete (doc, .inl (j :: p2).dropLast)).2 with
    | inl q =>
      refine ⟨_, rfl, (getAt (deletePhase all_to_delete
          (doc, .inl (j :: p2).dropLast)).1 q).getD emptyElem,
        stampAll ((getAt doc (j :: p2)).getD emptyElem) fmt cx cy
          (deletePhase all_to_delete (doc, .inl (j :: p2).dropLast)).1.idList,
        rfl, hlen, ?_⟩
      intro w hw
      obtain ⟨htag, sid, copy, hch, hcopy⟩ := hshape w hw
      exact ⟨htag, copy, hch, by rw [hcopy]; exact sameShape_setId _ sid⟩
    | inr v =>
      refine ⟨_, rfl, v,
        stampAll ((getAt doc (j :: p2)).getD emptyElem) fmt cx cy
          (deletePhase all_to_delete (doc, .inl (j :: p2).dropLast)).1.idList,
        rfl, hlen, ?_⟩
      intro w hw
      obtain ⟨htag, sid, copy, hch, hcopy⟩ := hshape w hw
      exact ⟨htag, copy, hch, by rw [hcopy]; exact sameShape_setId _ sid⟩

/-- Witness for C5 at the minimal template document. -/
theorem C5_stamp_structure_witness :
    (findPath simpleDoc TEMPLATE_ID = some [0] ∧ ([0] : List ℕ) ≠ []) ∧
    (∃ o : RunOut, runMain fmt0 0 0 simpleDoc = some o ∧
      ∃ (mid : Elem) (W : List Elem),
        o.starParent = appendChildren mid W ∧
        W.length = TOTAL_STARS ∧
        ∀ w ∈ W, w.tag = WRAPPER_TAG ∧
          ∃ copy : Elem, w.children = [copy] ∧
            sameShape copy ((getAt simpleDoc [0]).getD emptyElem) = true) :=
  ⟨⟨by decide, by decide⟩,
   C5_stamp_structure fmt0 0 0 simpleDoc [0] (by decide) (by decide)⟩

/-! ## Claim C1: supporting lemmas about decimal identifiers -/

theorem toDigitsCore_eq (f : ℕ) :
    ∀ (n : ℕ) (ds : List Char), n < f →
      Nat.toDigitsCore 10 f n ds
        = (if n = 0 then ['0'] else ((Nat.digits 10 n).reverse.map Nat.digitChar)) ++ ds := by
  induction f with
  | zero =>
    intro n ds h
    omega
  | succ f ih =>
    intro n ds h
    rw [Nat.toDigitsCore]
    by_cases hn : n = 0
    · subst hn
      have hdc : Nat.digitChar (0 % 10) = '0' := by decide
      simp [hdc]
    · by_cases hq : n / 10 = 0
      · have hlt : n < 10 := by omega
        simp only [hq, if_pos rfl, if_neg hn]
        have hdig : Nat.digits 10 n = [n] := by
          rw [Nat.digits_def' (by norm_num : (1 : ℕ) < 10) (by omega)]
          rw [Nat.mod_eq_of_lt hlt, hq]
          simp
        rw [hdig]
        have hmod : n % 10 = n := Nat.mod_eq_of_lt hlt
        simp [hmod]
      · simp only [hq, if_false, if_neg hn]
        have hdiv : n / 10 < f := by
          have h1 : n / 10 < n := Nat.div_lt_self (by omega) (by norm_num)
          omega
        rw [ih (n / 10) (Nat.digitChar (n % 10) :: ds) hdiv]
        rw [if_neg hq]
        rw [Nat.digits_def' (b := 10) (by norm_num : (1 : ℕ) < 10) (n := n) (by omega)]
        simp

theorem nat_repr_eq (n : ℕ) :
    Nat.repr n
      = (if n = 0 then ['0'] else ((Nat.digits 10 n).reverse.map Nat.digitChar)).asString := by
  rw [Nat.repr, Nat.toDigits, toDigitsCore_eq (n + 1) n [] (by omega)]
  rw [List.append_nil]

theorem digitChar_inj_lt : ∀ a < 10, ∀ b < 10, Nat.digitChar a = Nat.digitChar b → a = b := by
  decide

theorem map_digitChar_inj :
    ∀ (l1 l2 : List ℕ), (∀ x ∈ l1, x < 10) → (∀ x ∈ l2, x < 10) →
      l1.map Nat.digitChar = l2.map Nat.digitChar → l1 = l2 := by
  intro l1
  induction l1 with
  | nil =>
    intro l2 _ _ h
    cases l2 with
    | nil => rfl
    | cons c t => simp at h
  | cons c t ih =>
    intro l2 h1 h2 h
    cases l2 with
    | nil => simp at h
    | cons c2 t2 =>
      simp only [List.map_cons, List.cons.injEq] at h
      have hc : c = c2 :=
        digitChar_inj_lt c (h1 c (by simp)) c2 (h2 c2 (by simp)) h.1
      rw [hc, ih t2 (fun x hx => h1 x (by simp [hx])) (fun x hx => h2 x (by simp [hx])) h.2]

theorem nat_repr_injective : Function.Injective Nat.repr := by
  intro n m h
  rw [nat_repr_eq, nat_repr_eq] at h
  have h2 : (if n = 0 then ['0'] else ((Nat.digits 10 n).reverse.map Nat.digitChar))
      = (if m = 0 then ['0'] else ((Nat.digits 10 m).reverse.map Nat.digitChar)) :=
    congrArg String.data h
  have hzero : ∀ k : ℕ, k ≠ 0 →
      ['0'] ≠ (Nat.digits 10 k).reverse.map Nat.digitChar := by
    intro k hk hc
    have hrev : (Nat.digits 10 k).reverse.map Nat.digitChar = ['0'] := hc.symm
    have hrevs : (Nat.digits 10 k).reverse = [0] := by
      apply map_digitChar_inj
      · intro x hx
        exact Nat.digits_lt_base (by norm_num) (List.mem_reverse.1 hx)
      · intro x hx
        simp at hx
        omega
      · rw [hrev]
        rfl
    have hdig : Nat.digits 10 k = [0] := by
      have := congrArg List.reverse hrevs
      simpa using this
    have hofd := Nat.ofDigits_digits 10 k
    rw [hdig] at hofd
    simp [Nat.ofDigits] at hofd
    exact hk hofd.symm
  by_cases hn : n = 0 <;> by_cases hm : m = 0
  · rw [hn, hm]
  · rw [if_pos hn, if_neg hm] at h2
    exact absurd h2 (hzero m hm)
  · rw [if_neg hn, if_pos hm] at h2
    exact absurd h2.symm (hzero n hn)
  · rw [if_neg hn, if_neg hm] at h2
    have hrev : (Nat.digits 10 n).reverse = (Nat.digits 10 m).reverse := by
      apply map_digitChar_inj
      · intro x hx
        exact Nat.digits_lt_base (by norm_num) (List.mem_reverse.1 hx)
      · intro x hx
        exact Nat.digits_lt_base (by norm_num) (List.mem_reverse.1 hx)
      · exact h2
    have hdig : Nat.digits 10 n = Nat.digits 10 m := by
      have := congrArg List.reverse hrev
      simpa using this
    have h3 := Nat.ofDigits_digits 10 n
    have h4 := Nat.ofDigits_digits 10 m
    rw [← h3, ← h4, hdig]

theorem string_data_append (a b : String) : (a ++ b).data = a.data ++ b.data := by
  cases a
  cases b
  rfl

theorem string_data_inj {a b : String} (h : a.data = b.data) : a = b := by
  cases a
  cases b
  exact congrArg String.mk h

theorem nat_repr_ne_nil (n : ℕ) : (Nat.repr n).data ≠ [] := by
  rw [nat_repr_eq]
  by_cases hn : n = 0
  · rw [if_pos hn]
    simp [List.asString]
  · rw [if_neg hn]
    show ((Nat.digits 10 n).reverse.map Nat.digitChar) ≠ []
    simp [Nat.digits_ne_nil_iff_ne_zero.2 hn]

theorem toString_nat_eq_repr (n : ℕ) : toString n = Nat.repr n := rfl

theorem starCand_injective (base : String) : Function.Injective (starCand base) := by
  intro a b h
  match a, b with
  | 0, 0 => rfl
  | 0, k + 1 =>
    exfalso
    rw [starCand, starCand] at h
    have hlen := congrArg (fun s => s.data.length) h
    simp only [string_data_append, List.length_append] at hlen
    have hne := nat_repr_ne_nil (k + 2)
    have : 0 < (Nat.repr (k + 2)).data.length := List.length_pos.2 hne
    rw [toString_nat_eq_repr] at hlen
    simp at hlen
    omega
  | j + 1, 0 =>
    exfalso
    rw [starCand, starCand] at h
    have hlen := congrArg (fun s => s.data.length) h
    simp only [string_data_append, List.length_append] at hlen
    have hne := nat_repr_ne_nil (j + 2)
    have : 0 < (Nat.repr (j + 2)).data.length := List.length_pos.2 hne
    rw [toString_nat_eq_repr] at hlen
    simp at hlen
    omega
  | j + 1, k + 1 =>
    rw [starCand, starCand] at h
    have hdata := congrArg String.data h
    simp only [string_data_append] at hdata
    have h1 : (toString (j + 2)).data = (toString (k + 2)).data :=
      List.append_cancel_left hdata
    have h3 : toString (j + 2) = toString (k + 2) := string_data_inj h1
    rw [toString_nat_eq_repr, toString_nat_eq_repr] at h3
    have h4 := nat_repr_injective h3
    omega

theorem wrapCand_length (sid : String) (k : ℕ) :
    (wrapCand sid k).data.length = sid.data.length + 5 + 2 * k := by
  induction k with
  | zero =>
    rw [wrapCand, string_data_append]
    simp
  | succ k ih =>
    rw [wrapCand, string_data_append, List.length_append, ih]
    simp
    omega

theorem wrapCand_injective (sid : String) : Function.Injective (wrapCand sid) := by
  intro a b h
  have h1 := congrArg (fun s => s.data.length) h
  simp only [wrapCand_length] at h1
  omega

theorem exists_fresh (cand : ℕ → String) (hinj : Function.Injective cand)
    (ids : List String) : ∃ k, k ≤ ids.length ∧ cand k ∉ ids := by
  by_contra hc
  push_neg at hc
  have hmaps : ∀ k ∈ Finset.range (ids.length + 1), cand k ∈ ids.toFinset := by
    intro k hk
    rw [Finset.mem_range] at hk
    exact List.mem_toFinset.2 (hc k (by omega))
  have hcard := Finset.card_le_card_of_injOn cand hmaps hinj.injOn
  rw [Finset.card_range] at hcard
  have hle := ids.toFinset_card_le
  omega

theorem mintLoop_not_mem (cand : ℕ → String) (ids : List String) :
    ∀ (fuel k : ℕ), (∃ j, k ≤ j ∧ j ≤ k + fuel ∧ cand j ∉ ids) →
      mintLoop cand ids fuel k ∉ ids := by
  intro fuel
  induction fuel with
  | zero =>
    intro k ⟨j, h1, h2, h3⟩
    have hj : j = k := by omega
    subst hj
    rw [mintLoop]
    exact h3
  | succ f ih =>
    intro k ⟨j, h1, h2, h3⟩
    rw [mintLoop]
    by_cases hm : cand k ∈ ids
    · rw [if_pos hm]
      apply ih (k + 1)
      have hjk : j ≠ k := by
        intro hc
        subst hc
        exact h3 hm
      exact ⟨j, by omega, by omega, h3⟩
    · rw [if_neg hm]
      exact hm

theorem mintStar_not_mem (base : String) (ids : List String) :
    mintStar base ids ∉ ids := by
  rw [mintStar]
  apply mintLoop_not_mem
  obtain ⟨k, hk, hnm⟩ := exists_fresh (starCand base) (starCand_injective base) ids
  exact ⟨k, by omega, by omega, hnm⟩

theorem mintWrap_not_mem (sid : String) (ids : List String) :
    mintWrap sid ids ∉ ids := by
  rw [mintWrap]
  apply mintLoop_not_mem
  obtain ⟨k, hk, hnm⟩ := exists_fresh (wrapCand sid) (wrapCand_injective sid) ids
  exact ⟨k, by omega, by omega, hnm⟩

/-- One stamping step preserves the id-freshness invariant: the wrappers
built so far carry pairwise-distinct ids, none of them among the pre-stamp
document ids, and the tracked id set is exactly the initial ids plus the
wrapper-carried ones.  Requires the snapshot to carry no ids below its
root. -/
theorem stampStep_invariant (snapshot : Elem) (fmt : ℝ → String) (cx cy : ℝ)
    (hleaf : idListL snapshot.children = []) (ids0 : List String)
    (st : List String × List Elem) (i : ℕ)
    (h1 : (idListL st.2).Nodup) (h2 : ∀ x ∈ idListL st.2, x ∉ ids0)
    (h3 : ∀ x, x ∈ st.1 ↔ x ∈ ids0 ∨ x ∈ idListL st.2) :
    (idListL (stampStep snapshot fmt cx cy st i).2).Nodup ∧
    (∀ x ∈ idListL (stampStep snapshot fmt cx cy st i).2, x ∉ ids0) ∧
    (∀ x, x ∈ (stampStep snapshot fmt cx cy st i).1 ↔
      x ∈ ids0 ∨ x ∈ idListL (stampStep snapshot fmt cx cy st i).2) := by
  obtain ⟨ids, out⟩ := st
  simp only at h1 h2 h3
  have hsid_not : mintStar (TEMPLATE_ID ++ "_new" ++ pad2 i) ids ∉ ids :=
    mintStar_not_mem _ _
  set sid := mintStar (TEMPLATE_ID ++ "_new" ++ pad2 i) ids with hsid
  have hwid_not : mintWrap sid (sid :: ids) ∉ sid :: ids := mintWrap_not_mem _ _
  set wid := mintWrap sid (sid :: ids) with hwid
  have hwne : wid ≠ sid := fun hc => hwid_not (by rw [hc]; exact List.mem_cons_self _ _)
  have hwids : wid ∉ ids := fun hc => hwid_not (List.mem_cons_of_mem _ hc)
  have hsid0 : sid ∉ ids0 := fun hc => hsid_not ((h3 sid).2 (Or.inl hc))
  have hsidL : sid ∉ idListL out := fun hc => hsid_not ((h3 sid).2 (Or.inr hc))
  have hwid0 : wid ∉ ids0 := fun hc => hwids ((h3 wid).2 (Or.inl hc))
  have hwidL : wid ∉ idListL out := fun hc => hwids ((h3 wid).2 (Or.inr hc))
  have e1 : (stampStep snapshot fmt cx cy (ids, out) i).1 = wid :: sid :: ids := rfl
  have e2 : (stampStep snapshot fmt cx cy (ids, out) i).2
      = out ++ [Elem.node WRAPPER_TAG (some wid)
          (some ("rotate(" ++ fmt (stampAngle i) ++ " " ++ fmt cx ++ " " ++ fmt cy ++ ")"))
          [setId snapshot sid]] := rfl
  have hIdL : idListL (stampStep snapshot fmt cx cy (ids, out) i).2
      = idListL out ++ [wid, sid] := by
    rw [e2, idListL_append]
    congr 1
    show (Elem.node WRAPPER_TAG (some wid) _ [setId snapshot sid]).idList ++ idListL [] = _
    rw [idList_node, idListL]
    show wid :: ((setId snapshot sid).idList ++ idListL []) ++ [] = _
    rw [setId, idList_node, hleaf]
    rfl
  refine ⟨?_, ?_, ?_⟩
  · rw [hIdL, List.nodup_append]
    refine ⟨h1, by simp [hwne], ?_⟩
    intro x hx
    simp only [List.mem_cons, List.mem_singleton, List.not_mem_nil, or_false]
    rintro (rfl | rfl)
    · exact hwidL hx
    · exact hsidL hx
  · rw [hIdL]
    intro x hx
    rcases List.mem_append.1 hx with hx | hx
    · exact h2 x hx
    · rcases List.mem_cons.1 hx with rfl | hx
      · exact hwid0
      · rcases List.mem_cons.1 hx with rfl | hx
        · exact hsid0
        · cases hx
  · intro x
    rw [e1, hIdL]
    simp only [List.mem_cons, List.mem_append, List.mem_singleton, List.not_mem_nil,
      or_false, h3 x]
    tauto

/-- The freshness invariant carried through the whole stamping fold. -/
theorem stampFold_invariant (snapshot : Elem) (fmt : ℝ → String) (cx cy : ℝ)
    (hleaf : idListL snapshot.children = []) (ids0 : List String)
    (l : List ℕ) (st : List String × List Elem)
    (h : (idListL st.2).Nodup ∧ (∀ x ∈ idListL st.2, x ∉ ids0) ∧
      (∀ x, x ∈ st.1 ↔ x ∈ ids0 ∨ x ∈ idListL st.2)) :
    (idListL (l.foldl (stampStep snapshot fmt cx cy) st).2).Nodup ∧
    (∀ x ∈ idListL (l.foldl (stampStep snapshot fmt cx cy) st).2, x ∉ ids0) ∧
    (∀ x, x ∈ (l.foldl (stampStep snapshot fmt cx cy) st).1 ↔
      x ∈ ids0 ∨ x ∈ idListL (l.foldl (stampStep snapshot fmt cx cy) st).2) := by
  induction l generalizing st with
  | nil => exact h
  | cons i t ih =>
    rw [List.foldl_cons]
    exact ih _ (stampStep_invariant snapshot fmt cx cy hleaf ids0 st i h.1 h.2.1 h.2.2)

/-- The 27 freshly-minted wrappers carry pairwise-distinct ids, all of them
absent from the post-deletion document's id list. -/
theorem stampAll_fresh (snapshot : Elem) (fmt : ℝ → String) (cx cy : ℝ)
    (hleaf : idListL snapshot.children = []) (ids0 : List String) :
    (idListL (stampAll snapshot fmt cx cy ids0)).Nodup ∧
    ∀ x ∈ idListL (stampAll snapshot fmt cx cy ids0), x ∉ ids0 := by
  have h := stampFold_invariant snapshot fmt cx cy hleaf ids0
    (List.range TOTAL_STARS) (ids0, [])
    ⟨by simp [idListL], by simp [idListL], fun x => by simp [idListL]⟩
  exact ⟨h.1, h.2.1⟩

/-! ## Claim C1 -/

set_option maxRecDepth 10000 in
/-- C1 (counterexample): on a document with pairwise-distinct identifiers
whose template subtree carries an identifier on a descendant, the full run
produces an output document with a repeated identifier — each of the 27 deep
copies keeps the descendant's id "inner", and only the copy's root id and the
wrapper id are re-minted. -/
theorem C1_counterexample :
    c1CexDoc.idList.Nodup ∧
    ¬ (runOutTree (runMain fmt0 0 0 c1CexDoc)).idList.Nodup := by
  constructor
  · decide
  · decide

/-- C1 (amended): after a full run, no two elements of the output document
share an identifier, provided the input document's identifiers are pairwise
distinct AND the template subtree carries no identifier below its root (the
deep copies re-mint only the copied root's id and the wrapper id, so
id-bearing template descendants are excluded).  Runs that fail before
producing output are covered trivially (the output tree is then empty). -/
theorem C1_unique_ids_amended (fmt : ℝ → String) (cx cy : ℝ) (doc : Elem)
    (p : List ℕ)
    (hnd : doc.idList.Nodup)
    (hp : findPath doc TEMPLATE_ID = some p)
    (hleaf : idListL ((getAt doc p).getD emptyElem).children = []) :
    (runOutTree (runMain fmt cx cy doc)).idList.Nodup := by
  rw [runMain, hp]
  cases p with
  | nil =>
    show (runOutTree none).idList.Nodup
    decide
  | cons j q =>
    dsimp only
    set D := deletePhase all_to_delete (doc, Sum.inl (j :: q).dropLast) with hD
    set snap := (getAt doc (j :: q)).getD emptyElem with hsnap
    set W := stampAll snap fmt cx cy D.1.idList with hW
    have hnd1 : D.1.idList.Nodup :=
      (deletePhase_idList_sublist all_to_delete (doc, Sum.inl (j :: q).dropLast)).nodup hnd
    obtain ⟨hwnd, hwfresh⟩ := stampAll_fresh snap fmt cx cy hleaf D.1.idList
    cases hst2 : D.2 with
    | inr v =>
      dsimp only [runOutTree]
      exact hnd1
    | inl q2 =>
      dsimp only [runOutTree]
      cases hu : getAt D.1 q2 with
      | none =>
        dsimp only [Option.getD]
        rw [setAt_of_getAt_none q2 D.1 _ hu]
        exact hnd1
      | some u =>
        dsimp only [Option.getD]
        obtain ⟨X, Y, hXY, hset, _⟩ := getAt_split q2 D.1 u hu
        rw [hset (appendChildren u W)]
        obtain ⟨ut, ui, utr, ucs⟩ := u
        have happ : (appendChildren (Elem.node ut ui utr ucs) W).idList
            = (Elem.node ut ui utr ucs).idList ++ idListL W := by
          rw [appendChildren]
          show (Elem.node ut ui utr (ucs ++ W)).idList = _
          rw [idList_node, idList_node, idListL_append, List.append_assoc]
        rw [happ]
        have goodNodup :
            ((X ++ (Elem.node ut ui utr ucs).idList ++ Y) ++ idListL W).Nodup := by
          rw [← hXY, List.nodup_append]
          exact ⟨hnd1, hwnd, fun x hx hxw => hwfresh x hxw hx⟩
        have hp1 : X ++ ((Elem.node ut ui utr ucs).idList ++ idListL W) ++ Y
            = X ++ ((Elem.node ut ui utr ucs).idList ++ (idListL W ++ Y)) := by
          simp [List.append_assoc]
        have hp2 : (X ++ (Elem.node ut ui utr ucs).idList ++ Y) ++ idListL W
            = X ++ ((Elem.node ut ui utr ucs).idList ++ (Y ++ idListL W)) := by
          simp [List.append_assoc]
        have hperm : ((X ++ (Elem.node ut ui utr ucs).idList ++ Y) ++ idListL W).Perm
            (X ++ ((Elem.node ut ui utr ucs).idList ++ idListL W) ++ Y) := by
          rw [hp2, hp1]
          exact (List.perm_append_comm.append_left _).append_left X
        exact hperm.nodup goodNodup

/-- C1 witness: on the minimal well-behaved document the hypotheses hold
concretely and the amended theorem yields uniqueness of the output ids. -/
theorem C1_unique_ids_amended_witness :
    simpleDoc.idList.Nodup ∧
    findPath simpleDoc TEMPLATE_ID = some [0] ∧
    idListL ((getAt simpleDoc [0]).getD emptyElem).children = [] ∧
    (runOutTree (runMain fmt0 0 0 simpleDoc)).idList.Nodup :=
  ⟨by decide, by decide, by decide,
    C1_unique_ids_amended fmt0 0 0 simpleDoc [0] (by decide) (by decide) (by decide)⟩

end Exordium

end
